import Mathlib

set_option autoImplicit false

/-!
Verification of the `EncoderRNN` module (src/models/encoderRNN.py).

The embedding models feature values as rationals (`Vec := List ℚ`); token
batches are lists of padded index rows.  The PyTorch primitives used by the
module (`nn.Embedding`, `nn.Dropout`, `pack_padded_sequence`, the recurrent
stack, `pad_packed_sequence`) are modelled at the level of their documented
tensor semantics: packing produces the time-major frame representation
(frame `t` holds the active sequences at timestep `t`), the recurrent stack
runs over those frames updating one hidden vector per batch element, and
unpacking restores a dense batch-major layout padded to the number of
frames.  The recurrent cell arithmetic itself is a parameter (a function
`Vec → Vec → Vec`): every claim under verification is independent of the
cell's numerical formula.  Dropout randomness is modelled by explicit mask
functions supplied per call, with the training flag supplied externally.
-/

namespace PytorchSeq2Seq

/-- Feature vectors: one rational per feature. -/
abbrev Vec := List ℚ

/-- Zero vector of a given width (PyTorch's default initial hidden state and
the padding value of `pad_packed_sequence`). -/
def zerosVec (n : Nat) : Vec := List.replicate n 0

/-- The three recurrent-cell classes named by the `supported_rnns` dict. -/
inductive RNNType
  | lstm
  | gru
  | rnn
deriving DecidableEq, Repr

/-- `supported_rnns = {'lstm': nn.LSTM, 'gru': nn.GRU, 'rnn': nn.RNN}`,
as an association list (insertion order as in the source). -/
def supported_rnns : List (String × RNNType) :=
  [("lstm", RNNType.lstm), ("gru", RNNType.gru), ("rnn", RNNType.rnn)]

/-- `supported_rnns.keys()`. -/
def supportedKeys : List String := supported_rnns.map Prod.fst

/-- `nn.Embedding(num_embeddings, embedding_dim)`: a lookup table. -/
structure Embedding where
  num_embeddings : Nat
  embedding_dim : Nat
  weight : List Vec

/-- `nn.Dropout(p)`. -/
structure Dropout where
  p : ℚ

/-- One recurrent cell: maps (input vector, hidden vector) to the new hidden
vector.  The numerical formula (RNN/GRU/LSTM equations) is abstracted. -/
structure RNNCell where
  step : Vec → Vec → Vec

/-- The recurrent stack produced by `self.rnn_cell(input_size=..., ...)`:
configuration plus one cell per layer and direction. -/
structure RNNModule where
  input_size : Nat
  hidden_size : Nat
  num_layers : Nat
  batch_first : Bool
  bidirectional : Bool
  dropout : ℚ
  cellF : Nat → RNNCell
  cellB : Nat → RNNCell

/-- The three sub-layers owned by a constructed `EncoderRNN`, plus the
selected cell class. -/
structure EncoderRNN where
  rnn_cell : RNNType
  embedding : Embedding
  input_dropout : Dropout
  rnn : RNNModule

/-- The framework-supplied random initial weights consumed by construction
(embedding table and per-layer cell parameters). -/
structure WeightInit where
  embW : List Vec
  cellF : Nat → RNNCell
  cellB : Nat → RNNCell

/-- Python's `str.lower()` (ASCII case mapping, which covers the variant
names at issue): lower every character. -/
def pyLower (s : String) : String := ⟨s.data.map Char.toLower⟩

/-- Errors observable during `EncoderRNN.__init__`: the `assert` statement
(the spec's ConfigurationError) and a Python `KeyError` from dict lookup. -/
inductive InitError
  | assertionError (msg : String)
  | keyError (key : String)
deriving DecidableEq, Repr

/-- `EncoderRNN.__init__`, with the source's statement order:
first `assert rnn_type.lower() in supported_rnns.keys()`, then the dict
lookup `supported_rnns[rnn_type]`, then allocation of the embedding table,
the input dropout and the recurrent stack.  A raised error aborts
construction with nothing allocated (`Except.error`). -/
def EncoderRNN.init (in_features hidden_size : Nat) (dropout_p : ℚ)
    (n_layers : Nat) (bidirectional : Bool) (rnn_type : String)
    (w : WeightInit) : Except InitError EncoderRNN :=
  if supportedKeys.contains (pyLower rnn_type) then
    match supported_rnns.lookup rnn_type with
    | some cell =>
        Except.ok
          { rnn_cell := cell
            embedding :=
              { num_embeddings := in_features
                embedding_dim := hidden_size
                weight := w.embW }
            input_dropout := { p := dropout_p }
            rnn :=
              { input_size := hidden_size
                hidden_size := hidden_size
                num_layers := n_layers
                batch_first := true
                bidirectional := bidirectional
                dropout := dropout_p
                cellF := w.cellF
                cellB := w.cellB } }
    | none => Except.error (InitError.keyError rnn_type)
  else Except.error (InitError.assertionError "RNN type not supported.")

/-! ### Elementary helpers (indexed maps, error-propagating maps) -/

/-- Map with the element's position, starting the position counter at `k`. -/
def mapIdxFrom {α β : Type} (g : Nat → α → β) : Nat → List α → List β
  | _, [] => []
  | k, a :: r => g k a :: mapIdxFrom g (k + 1) r

/-- Elementwise map that aborts at the first error (Python semantics of an
elementwise tensor operation that can raise). -/
def exceptMap {ε α β : Type} (f : α → Except ε β) : List α → Except ε (List β)
  | [] => Except.ok []
  | a :: r =>
    match f a with
    | Except.error e => Except.error e
    | Except.ok b =>
      match exceptMap f r with
      | Except.error e => Except.error e
      | Except.ok rest => Except.ok (b :: rest)

/-! ### Forward-pass model -/

/-- Errors observable during `EncoderRNN.forward`: an out-of-range embedding
index, and the precondition violations raised by `pack_padded_sequence`. -/
inductive FwdError
  | indexError
  | lengthsMismatch
  | unsortedLengths
  | nonPositiveLength
  | lengthExceedsPadding
deriving DecidableEq, Repr

/-- One embedding lookup: `weight[idx]`, raising on an out-of-range index. -/
def Embedding.lookupIdx (e : Embedding) (idx : Nat) : Except FwdError Vec :=
  if idx < e.num_embeddings then
    Except.ok (e.weight.getD idx (zerosVec e.embedding_dim))
  else Except.error FwdError.indexError

/-- `self.embedding(inputs)`: elementwise lookup over the padded batch
(padding positions are looked up too). -/
def Embedding.forward (e : Embedding) (inputs : List (List Nat)) :
    Except FwdError (List (List Vec)) :=
  exceptMap (fun row => exceptMap e.lookupIdx row) inputs

/-- Dropout on one vector, given the per-feature keep mask: kept entries are
rescaled by `1/(1-p)`, dropped entries become `0`. -/
def dropVec (p : ℚ) (keep : Nat → Bool) (v : Vec) : Vec :=
  mapIdxFrom (fun k a => if keep k then a / (1 - p) else 0) 0 v

/-- `self.input_dropout(embedded)`: in training mode with `p ≠ 0`, apply the
(externally drawn) Bernoulli keep-mask elementwise; otherwise the identity.
The mask is indexed by (batch element, timestep, feature). -/
def Dropout.forward (d : Dropout) (training : Bool)
    (mask : Nat → Nat → Nat → Bool) (x : List (List Vec)) : List (List Vec) :=
  if training = true ∧ d.p ≠ 0 then
    mapIdxFrom (fun i row => mapIdxFrom (fun t v => dropVec d.p (mask i t) v) 0 row) 0 x
  else x

/-- Number of batch elements still active at timestep `t`. -/
def batchSizeAt (lengths : List Nat) (t : Nat) : Nat :=
  lengths.countP (fun l => decide (t < l))

/-- The largest declared true length. -/
def maxLen (lengths : List Nat) : Nat := lengths.foldr max 0

/-- `enforce_sorted`: lengths must be non-increasing. -/
def sortedDesc : List Nat → Bool
  | [] => true
  | [_] => true
  | a :: b :: r => decide (b ≤ a) && sortedDesc (b :: r)

/-- A packed batch: time-major frames (frame `t` lists the timestep-`t`
vectors of the sequences still active at `t`, in batch order) together with
the per-timestep batch sizes. -/
structure PackedSeq where
  data : List (List Vec)
  batch_sizes : List Nat

/-- The time-major frames of a padded batch: frame `t` keeps, in batch
order, the timestep-`t` entry of every sequence whose true length
exceeds `t`. -/
def timeMajor (x : List (List Vec)) (lengths : List Nat) : List (List Vec) :=
  (List.range (maxLen lengths)).map (fun t =>
    (x.zip lengths).filterMap (fun rl =>
      if t < rl.2 then some (rl.1.getD t []) else none))

/-- `nn.utils.rnn.pack_padded_sequence(x, lengths, batch_first=True)`:
validates the lengths array against the padded batch (count match,
non-increasing order, strict positivity, max length within the padded
width) and produces the time-major packed representation.  The module
under verification performs none of these checks itself. -/
def pack_padded_sequence (x : List (List Vec)) (lengths : List Nat) :
    Except FwdError PackedSeq :=
  if x.length = lengths.length then
    if sortedDesc lengths then
      if lengths.all (fun l => decide (0 < l)) then
        if maxLen lengths ≤ (x.headD []).length then
          Except.ok
            { data := timeMajor x lengths
              batch_sizes := (List.range (maxLen lengths)).map (batchSizeAt lengths) }
        else Except.error FwdError.lengthExceedsPadding
      else Except.error FwdError.nonPositiveLength
    else Except.error FwdError.unsortedLengths
  else Except.error FwdError.lengthsMismatch

/-- Advance every active hidden state by one timestep: position `i` of the
frame updates hidden `i`; hiddens beyond the frame (finished sequences) are
left untouched. -/
def stepFrame (c : RNNCell) : List Vec → List Vec → List Vec
  | [], hs => hs
  | _ :: _, [] => []
  | x :: fr, h :: hr => c.step x h :: stepFrame c fr hr

/-- Left-to-right pass of one direction of one layer over the time-major
frames.  Returns the output frames (the updated hiddens of the active
sequences, per timestep) and the final hidden states (one per batch
element, frozen once its sequence ends). -/
def runFwd (c : RNNCell) : List (List Vec) → List Vec → List (List Vec) × List Vec
  | [], hs => ([], hs)
  | f :: rest, hs =>
    let hs' := stepFrame c f hs
    let r := runFwd c rest hs'
    (hs'.take f.length :: r.1, r.2)

/-- Right-to-left pass: later frames are processed first, so each sequence
is consumed in reverse; the output frame at timestep `t` holds the hidden
state just after processing timestep `t`, and the final hidden state is the
one produced at timestep `0`. -/
def runBwd (c : RNNCell) : List (List Vec) → List Vec → List (List Vec) × List Vec
  | [], hs => ([], hs)
  | f :: rest, hs =>
    let r := runBwd c rest hs
    let hs' := stepFrame c f r.2
    (hs'.take f.length :: r.1, hs')

/-- Concatenate the forward and backward output frames featurewise. -/
def concatFrames : List (List Vec) → List (List Vec) → List (List Vec) :=
  List.zipWith (List.zipWith (fun a b => a ++ b))

/-- Inter-layer dropout over time-major frames; the mask is indexed by
(timestep, batch element, feature), the counter `t` tracks the timestep. -/
def dropFrames (p : ℚ) (mask : Nat → Nat → Nat → Bool) :
    Nat → List (List Vec) → List (List Vec)
  | _, [] => []
  | t, f :: r =>
    mapIdxFrom (fun i v => dropVec p (mask t i) v) 0 f :: dropFrames p mask (t + 1) r

/-- The layer loop of the recurrent stack over time-major frames: each layer
runs its direction passes from zero initial hidden states, concatenates the
direction outputs if bidirectional, and (in training mode, with `p ≠ 0`)
applies inter-layer dropout to the result before feeding the next layer —
dropout is applied between layers only, never after the last layer.
Returns the last layer's output frames and the per-(layer, direction)
final hidden states, layer-major with forward before backward. -/
def RNNModule.runLayers (m : RNNModule) (training : Bool)
    (mask : Nat → Nat → Nat → Nat → Bool) (B : Nat) :
    List Nat → List (List Vec) → List (List Vec) × List (List Vec)
  | [], frames => (frames, [])
  | l :: rest, frames =>
    let h0 := List.replicate B (zerosVec m.hidden_size)
    let rf := runFwd (m.cellF l) frames h0
    let rb := runBwd (m.cellB l) frames h0
    let combined := if m.bidirectional then concatFrames rf.1 rb.1 else rf.1
    let hsHere := if m.bidirectional then [rf.2, rb.2] else [rf.2]
    let next :=
      if rest ≠ [] ∧ training = true ∧ m.dropout ≠ 0 then
        dropFrames m.dropout (fun t i => mask l t i) 0 combined
      else combined
    let res := m.runLayers training mask B rest next
    (res.1, hsHere ++ res.2)

/-- `self.rnn(packed)`: run all layers over the packed input; the packed
output keeps the input's batch sizes, and the hidden-state stack is a list
of `num_layers × directions` rows, each a batch of hidden vectors. -/
def RNNModule.runPacked (m : RNNModule) (training : Bool)
    (mask : Nat → Nat → Nat → Nat → Bool) (p : PackedSeq) :
    PackedSeq × List (List Vec) :=
  let B := p.batch_sizes.headD 0
  let r := m.runLayers training mask B (List.range m.num_layers) p.data
  ({ data := r.1, batch_sizes := p.batch_sizes }, r.2)

/-- `nn.utils.rnn.pad_packed_sequence(output, batch_first=True)`: restore a
dense batch-major layout.  Row `i` collects sequence `i`'s entries from each
frame it appears in and is right-padded with zero vectors up to the number
of frames (the maximum true length of the call); the second component is
the recovered lengths array (discarded by the caller). -/
def pad_packed_sequence (p : PackedSeq) : List (List Vec) × List Nat :=
  let B := p.batch_sizes.headD 0
  let T := p.data.length
  let featDim := ((p.data.headD []).headD []).length
  (((List.range B).map (fun i =>
      let core := p.data.filterMap (fun f => f[i]?)
      core ++ List.replicate (T - core.length) (zerosVec featDim))),
   (List.range B).map (fun i => (p.data.filterMap (fun f => f[i]?)).length))

/-- The externally drawn dropout randomness for one forward call: a keep
mask for the input dropout (batch element, timestep, feature) and one for
the inter-layer dropout of the stack (layer, timestep, batch element,
feature). -/
structure DropMasks where
  inputMask : Nat → Nat → Nat → Bool
  layerMask : Nat → Nat → Nat → Nat → Bool

/-- `EncoderRNN.forward(inputs, input_lengths)`, line by line:
embedding lookup, input dropout, `pack_padded_sequence`, the recurrent
stack, `pad_packed_sequence`; returns `(output, hidden)`.  Any error of a
step propagates unchanged and aborts the call. -/
def EncoderRNN.forward (m : EncoderRNN) (training : Bool) (masks : DropMasks)
    (inputs : List (List Nat)) (input_lengths : List Nat) :
    Except FwdError (List (List Vec) × List (List Vec)) := do
  let embedded ← m.embedding.forward inputs
  let embedded := m.input_dropout.forward training masks.inputMask embedded
  let packed ← pack_padded_sequence embedded input_lengths
  let r := m.rnn.runPacked training masks.layerMask packed
  let padded := pad_packed_sequence r.1
  pure (padded.1, r.2)

/-! ### Per-sequence reference semantics

The intended meaning of the packed computation for one sequence: a plain
left-to-right (and right-to-left) recurrence over that sequence alone.
The batch-ordering claim states that row `i` of the batched output equals
this reference applied to input sequence `i`. -/

/-- Left-to-right hidden states over one sequence. -/
def outsOf (c : RNNCell) : List Vec → Vec → List Vec
  | [], _ => []
  | x :: r, h =>
    let h' := c.step x h
    h' :: outsOf c r h'

/-- Final hidden state of the left-to-right pass. -/
def lastH (c : RNNCell) : List Vec → Vec → Vec
  | [], h => h
  | x :: r, h => lastH c r (c.step x h)

/-- Right-to-left hidden states over one sequence, listed by position:
entry `t` is the hidden state after consuming positions `n-1, …, t`. -/
def outsBwd (c : RNNCell) : List Vec → Vec → List Vec
  | [], _ => []
  | x :: r, h =>
    let os := outsBwd c r h
    c.step x (os.headD h) :: os

/-- Final hidden state of the right-to-left pass (produced at position 0). -/
def firstHBwd (c : RNNCell) (xs : List Vec) (h : Vec) : Vec :=
  (outsBwd c xs h).headD h

/-- Dropout along one sequence, position counter starting at `t`. -/
def dropSeq (p : ℚ) (mask : Nat → Nat → Bool) : Nat → List Vec → List Vec
  | _, [] => []
  | t, v :: r => dropVec p (mask t) v :: dropSeq p mask (t + 1) r

/-- Reference layer loop for the single sequence at batch position `i`:
mirrors `RNNModule.runLayers` with the batch dimension removed. -/
def RNNModule.refLayers (m : RNNModule) (training : Bool)
    (mask : Nat → Nat → Nat → Nat → Bool) (i : Nat) :
    List Nat → List Vec → List Vec × List Vec
  | [], xs => (xs, [])
  | l :: rest, xs =>
    let h0 := zerosVec m.hidden_size
    let of := outsOf (m.cellF l) xs h0
    let ob := outsBwd (m.cellB l) xs h0
    let combined := if m.bidirectional then List.zipWith (fun a b => a ++ b) of ob else of
    let hsHere :=
      if m.bidirectional then [lastH (m.cellF l) xs h0, firstHBwd (m.cellB l) xs h0]
      else [lastH (m.cellF l) xs h0]
    let next :=
      if rest ≠ [] ∧ training = true ∧ m.dropout ≠ 0 then
        dropSeq m.dropout (fun t => mask l t i) 0 combined
      else combined
    let res := m.refLayers training mask i rest next
    (res.1, hsHere ++ res.2)

/-- Reference per-timestep features of the sequence at batch position `i`. -/
def RNNModule.refEncode (m : RNNModule) (training : Bool)
    (mask : Nat → Nat → Nat → Nat → Bool) (i : Nat) (xs : List Vec) : List Vec :=
  (m.refLayers training mask i (List.range m.num_layers) xs).1

/-- Reference per-(layer, direction) final hidden states of the sequence at
batch position `i`. -/
def RNNModule.refHidden (m : RNNModule) (training : Bool)
    (mask : Nat → Nat → Nat → Nat → Bool) (i : Nat) (xs : List Vec) : List Vec :=
  (m.refLayers training mask i (List.range m.num_layers) xs).2

/-- The reference input sequence for batch position `i`: embedding lookup of
row `i`, input dropout with that row's mask, truncated to the row's true
length. -/
def EncoderRNN.refSeqInput (m : EncoderRNN) (training : Bool) (masks : DropMasks)
    (i : Nat) (row : List Nat) (len : Nat) : List Vec :=
  let emb := row.map (fun idx =>
    m.embedding.weight.getD idx (zerosVec m.embedding.embedding_dim))
  let dropped :=
    if training = true ∧ m.input_dropout.p ≠ 0 then
      dropSeq m.input_dropout.p (masks.inputMask i) 0 emb
    else emb
  dropped.take len

/-- Column `i` of a time-major frame list: the entries contributed by the
sequence at batch position `i`, in time order. -/
def col (i : Nat) (frames : List (List Vec)) : List Vec :=
  frames.filterMap (fun f => f[i]?)

/-- State-passing form of `forward`: the source mutates no attribute, so the
module component is returned unchanged alongside the result. -/
def EncoderRNN.forwardS (m : EncoderRNN) (training : Bool) (masks : DropMasks)
    (inputs : List (List Nat)) (input_lengths : List Nat) :
    Except FwdError (List (List Vec) × List (List Vec)) × EncoderRNN :=
  (m.forward training masks inputs input_lengths, m)

/-- The same encoder with both dropouts (the input dropout and the stack's
inter-layer dropout) set to probability 0; all other state is shared. -/
def zeroDropout (m : EncoderRNN) : EncoderRNN :=
  { rnn_cell := m.rnn_cell
    embedding := m.embedding
    input_dropout := { p := 0 }
    rnn := { m.rnn with dropout := 0 } }

/-- The embedded batch produced by a successful embedding lookup (every
index inside the table): row `i`, position `t` holds `weight[inputs[i][t]]`. -/
def embedBatch (m : EncoderRNN) (inputs : List (List Nat)) : List (List Vec) :=
  inputs.map (fun row => row.map (fun idx =>
    m.embedding.weight.getD idx (zerosVec m.embedding.embedding_dim)))

/-- A well-formed forward call: the padded batch is rectangular of width `T`,
the lengths array is parallel to the batch, non-increasing (the packing
utility's `enforce_sorted` contract), strictly positive, bounded by the
padded width, and every token index is inside the vocabulary. -/
abbrev validCall (m : EncoderRNN) (inputs : List (List Nat)) (lengths : List Nat)
    (T : Nat) : Prop :=
  inputs.length = lengths.length ∧
  sortedDesc lengths = true ∧
  (∀ l ∈ lengths, 0 < l) ∧
  (∀ row ∈ inputs, row.length = T) ∧
  maxLen lengths ≤ T ∧
  (∀ row ∈ inputs, ∀ idx ∈ row, idx < m.embedding.num_embeddings)

/-! ### Concrete fixtures (used by witness theorems) -/

/-- A one-dimensional additive recurrent cell. -/
def cAdd : RNNCell := { step := fun x h => [x.headD 0 + h.headD 0] }

/-- A concrete weight source. -/
def W0 : WeightInit := { embW := [[1], [2], [3]], cellF := fun _ => cAdd, cellB := fun _ => cAdd }

/-- Keep-everything dropout masks (a possible draw for any `p < 1`). -/
def masksKeep : DropMasks := { inputMask := fun _ _ _ => true, layerMask := fun _ _ _ _ => true }

/-- A concrete two-layer bidirectional encoder over a three-token
vocabulary, hidden width 1, dropout 0. -/
def M0 : EncoderRNN :=
  { rnn_cell := RNNType.gru
    embedding := { num_embeddings := 3, embedding_dim := 1, weight := [[1], [2], [3]] }
    input_dropout := { p := 0 }
    rnn :=
      { input_size := 1, hidden_size := 1, num_layers := 2, batch_first := true
        bidirectional := true, dropout := 0
        cellF := fun _ => cAdd, cellB := fun _ => cAdd } }

/-- A copying cell: the new hidden state is the input vector verbatim. -/
def cCopy : RNNCell := { step := fun x _ => x }

/-- Drop-everything dropout masks (the only possible Bernoulli draw when
the drop probability is 1). -/
def masksDrop : DropMasks :=
  { inputMask := fun _ _ _ => false, layerMask := fun _ _ _ _ => false }

/-- A single-layer unidirectional encoder with configured dropout 1
(as the constructor wires it: both the input dropout and the stack's
inter-layer dropout equal the one configured probability). -/
def Mone : EncoderRNN :=
  { rnn_cell := RNNType.gru
    embedding := { num_embeddings := 3, embedding_dim := 1, weight := [[1], [2], [3]] }
    input_dropout := { p := 1 }
    rnn :=
      { input_size := 1, hidden_size := 1, num_layers := 1, batch_first := true
        bidirectional := false, dropout := 1
        cellF := fun _ => cCopy, cellB := fun _ => cCopy } }

/-- The module built by `EncoderRNN.init 10 8 (1/2) 5 true "gru" W0`. -/
def Mgru : EncoderRNN :=
  { rnn_cell := RNNType.gru
    embedding := { num_embeddings := 10, embedding_dim := 8, weight := W0.embW }
    input_dropout := { p := (1 : ℚ) / 2 }
    rnn :=
      { input_size := 8, hidden_size := 8, num_layers := 5, batch_first := true
        bidirectional := true, dropout := (1 : ℚ) / 2
        cellF := W0.cellF, cellB := W0.cellB } }

/-- `Mone` with configured dropout 0 instead (all else identical). -/
def Mzero : EncoderRNN :=
  { rnn_cell := RNNType.gru
    embedding := { num_embeddings := 3, embedding_dim := 1, weight := [[1], [2], [3]] }
    input_dropout := { p := 0 }
    rnn :=
      { input_size := 1, hidden_size := 1, num_layers := 1, batch_first := true
        bidirectional := false, dropout := 0
        cellF := fun _ => cCopy, cellB := fun _ => cCopy } }

/-! ### Basic lemmas about the helpers -/

theorem mapIdxFrom_length {α β : Type} (g : Nat → α → β) (k : Nat) (l : List α) :
    (mapIdxFrom g k l).length = l.length := by
  induction l generalizing k with
  | nil => rfl
  | cons a r ih => simp [mapIdxFrom, ih]

theorem mapIdxFrom_getElem? {α β : Type} (g : Nat → α → β) (k : Nat) (l : List α) (i : Nat) :
    (mapIdxFrom g k l)[i]? = (l[i]?).map (g (k + i)) := by
  induction l generalizing k i with
  | nil => simp [mapIdxFrom]
  | cons a r ih =>
    cases i with
    | zero => simp [mapIdxFrom]
    | succ j =>
      rw [show k + (j + 1) = (k + 1) + j by omega]
      simpa [mapIdxFrom] using ih (k + 1) j

theorem exceptMap_ok_of_forall {ε α β : Type} (f : α → Except ε β) (g : α → β)
    (l : List α) (h : ∀ a ∈ l, f a = Except.ok (g a)) :
    exceptMap f l = Except.ok (l.map g) := by
  induction l with
  | nil => rfl
  | cons a r ih =>
    have ha := h a (List.mem_cons_self a r)
    have hr := ih (fun b hb => h b (List.mem_cons_of_mem a hb))
    simp [exceptMap, ha, hr]

theorem take_getElem? {α : Type} (l : List α) (n i : Nat) :
    (l.take n)[i]? = if i < n then l[i]? else none := by
  induction l generalizing n i with
  | nil => simp
  | cons a r ih =>
    cases n with
    | zero => simp
    | succ m =>
      cases i with
      | zero => simp
      | succ j => simpa [Nat.succ_lt_succ_iff] using ih m j

theorem zipWith_getElem? {α β γ : Type} (f : α → β → γ) (a : List α) (b : List β) (i : Nat) :
    (List.zipWith f a b)[i]? = (a[i]?).bind (fun x => (b[i]?).map (f x)) := by
  induction a generalizing b i with
  | nil => simp
  | cons x xr ih =>
    cases b with
    | nil => simp
    | cons y yr =>
      cases i with
      | zero => simp
      | succ j => simpa using ih yr j

theorem sortedDesc_tail {a : Nat} {r : List Nat} (h : sortedDesc (a :: r) = true) :
    sortedDesc r = true := by
  cases r with
  | nil => rfl
  | cons b s =>
    simp only [sortedDesc, Bool.and_eq_true, decide_eq_true_eq] at h
    exact h.2

theorem sortedDesc_head_ge {a : Nat} {r : List Nat} (h : sortedDesc (a :: r) = true) :
    ∀ x ∈ r, x ≤ a := by
  induction r generalizing a with
  | nil => simp
  | cons b s ih =>
    simp only [sortedDesc, Bool.and_eq_true, decide_eq_true_eq] at h
    intro x hx
    rcases List.mem_cons.mp hx with hxb | hxs
    · exact hxb ▸ h.1
    · exact le_trans (ih h.2 x hxs) h.1

theorem le_maxLen {l : Nat} {lengths : List Nat} (h : l ∈ lengths) : l ≤ maxLen lengths := by
  induction lengths with
  | nil => cases h
  | cons a r ih =>
    rcases List.mem_cons.mp h with rfl | hr
    · exact le_max_left _ _
    · exact le_trans (ih hr) (le_max_right _ _)

theorem batchSizeAt_le_length (lengths : List Nat) (t : Nat) :
    batchSizeAt lengths t ≤ lengths.length :=
  List.countP_le_length _

theorem batchSizeAt_antitone (lengths : List Nat) (t : Nat) :
    batchSizeAt lengths (t + 1) ≤ batchSizeAt lengths t := by
  unfold batchSizeAt
  refine List.countP_mono_left (fun a _ h => ?_)
  simp only [decide_eq_true_eq] at h ⊢
  omega

theorem batchSizeAt_zero_of_pos (lengths : List Nat)
    (hpos : ∀ l ∈ lengths, 0 < l) : batchSizeAt lengths 0 = lengths.length := by
  unfold batchSizeAt
  rw [List.countP_eq_length]
  intro a ha
  simpa using hpos a ha

theorem sortedDesc_range'_map (f : Nat → Nat) (hf : ∀ t, f (t + 1) ≤ f t) :
    ∀ (n s : Nat), sortedDesc ((List.range' s n).map f) = true
  | 0, _ => rfl
  | 1, _ => rfl
  | (n + 2), s => by
    have ih := sortedDesc_range'_map f hf (n + 1) (s + 1)
    simp only [List.range', List.map_cons] at ih ⊢
    simp only [sortedDesc, Bool.and_eq_true, decide_eq_true_eq] at ih ⊢
    exact ⟨hf s, ih⟩

theorem sortedDesc_range_map (f : Nat → Nat) (hf : ∀ t, f (t + 1) ≤ f t) (n : Nat) :
    sortedDesc ((List.range n).map f) = true := by
  rw [List.range_eq_range']
  exact sortedDesc_range'_map f hf n 0

/-! ### Shape and column lemmas for the direction passes -/

theorem stepFrame_length (c : RNNCell) (f hs : List Vec) :
    (stepFrame c f hs).length = hs.length := by
  induction f generalizing hs with
  | nil => rfl
  | cons x fr ih =>
    cases hs with
    | nil => rfl
    | cons h hr => simp [stepFrame, ih]

theorem stepFrame_getElem? (c : RNNCell) (f hs : List Vec) (i : Nat) :
    (stepFrame c f hs)[i]? =
      (hs[i]?).map (fun h =>
        match f[i]? with
        | some x => c.step x h
        | none => h) := by
  induction f generalizing hs i with
  | nil =>
    simp only [stepFrame, List.getElem?_nil]
    cases hs[i]? <;> rfl
  | cons x fr ih =>
    cases hs with
    | nil => simp [stepFrame]
    | cons h hr =>
      cases i with
      | zero => simp [stepFrame]
      | succ j => simpa [stepFrame] using ih hr j

theorem runFwd_fst_length (c : RNNCell) (frames : List (List Vec)) (hs : List Vec) :
    (runFwd c frames hs).1.length = frames.length := by
  induction frames generalizing hs with
  | nil => rfl
  | cons f rest ih => simp [runFwd, ih]

theorem runFwd_snd_length (c : RNNCell) (frames : List (List Vec)) (hs : List Vec) :
    (runFwd c frames hs).2.length = hs.length := by
  induction frames generalizing hs with
  | nil => rfl
  | cons f rest ih =>
    simp [runFwd, ih, stepFrame_length]

theorem runFwd_fst_shape (c : RNNCell) (frames : List (List Vec)) (hs : List Vec) :
    (runFwd c frames hs).1.map List.length
      = frames.map (fun f => min f.length hs.length) := by
  induction frames generalizing hs with
  | nil => rfl
  | cons f rest ih =>
    simp [runFwd, List.length_take, stepFrame_length, ih]

theorem runBwd_snd_length (c : RNNCell) (frames : List (List Vec)) (hs : List Vec) :
    (runBwd c frames hs).2.length = hs.length := by
  induction frames with
  | nil => rfl
  | cons f rest ih => simp [runBwd, stepFrame_length, ih]

theorem runBwd_fst_length (c : RNNCell) (frames : List (List Vec)) (hs : List Vec) :
    (runBwd c frames hs).1.length = frames.length := by
  induction frames with
  | nil => rfl
  | cons f rest ih => simp [runBwd, ih]

theorem runBwd_fst_shape (c : RNNCell) (frames : List (List Vec)) (hs : List Vec) :
    (runBwd c frames hs).1.map List.length
      = frames.map (fun f => min f.length hs.length) := by
  induction frames with
  | nil => rfl
  | cons f rest ih =>
    simp [runBwd, List.length_take, stepFrame_length, runBwd_snd_length, ih]

theorem col_cons_some {i : Nat} {f : List Vec} {r : List (List Vec)} {x : Vec}
    (hf : f[i]? = some x) : col i (f :: r) = x :: col i r := by
  simp [col, List.filterMap_cons, hf]

theorem col_cons_none {i : Nat} {f : List Vec} {r : List (List Vec)}
    (hf : f[i]? = none) : col i (f :: r) = col i r := by
  simp [col, List.filterMap_cons, hf]

theorem runFwd_col (c : RNNCell) (frames : List (List Vec)) (hs : List Vec)
    (i : Nat) (h : Vec) (hh : hs[i]? = some h) :
    col i (runFwd c frames hs).1 = outsOf c (col i frames) h ∧
    (runFwd c frames hs).2[i]? = some (lastH c (col i frames) h) := by
  induction frames generalizing hs h with
  | nil => exact ⟨by simp [runFwd, col, outsOf], by simp [runFwd, col, lastH, hh]⟩
  | cons f rest ih =>
    have hstep := stepFrame_getElem? c f hs i
    have hsplit1 : (runFwd c (f :: rest) hs).1
        = (stepFrame c f hs).take f.length :: (runFwd c rest (stepFrame c f hs)).1 := rfl
    have hsplit2 : (runFwd c (f :: rest) hs).2
        = (runFwd c rest (stepFrame c f hs)).2 := rfl
    cases hf : f[i]? with
    | some x =>
      have hi : i < f.length := by
        by_contra hle
        rw [List.getElem?_eq_none (by omega)] at hf
        exact Option.noConfusion hf
      have hs'i : (stepFrame c f hs)[i]? = some (c.step x h) := by
        rw [hstep, hh, hf]
        rfl
      have houtf : ((stepFrame c f hs).take f.length)[i]? = some (c.step x h) := by
        rw [take_getElem?, if_pos hi, hs'i]
      obtain ⟨ihc, ihh⟩ := ih (stepFrame c f hs) (c.step x h) hs'i
      constructor
      · rw [hsplit1, col_cons_some houtf, col_cons_some hf, ihc]
        rfl
      · rw [hsplit2, ihh, col_cons_some hf]
        rfl
    | none =>
      have hi : ¬ i < f.length := by
        intro hlt
        rw [List.getElem?_eq_getElem hlt] at hf
        exact Option.noConfusion hf
      have hs'i : (stepFrame c f hs)[i]? = some h := by
        rw [hstep, hh, hf]
        rfl
      have houtf : ((stepFrame c f hs).take f.length)[i]? = none := by
        rw [take_getElem?, if_neg hi]
      obtain ⟨ihc, ihh⟩ := ih (stepFrame c f hs) h hs'i
      constructor
      · rw [hsplit1, col_cons_none houtf, col_cons_none hf]
        exact ihc
      · rw [hsplit2, ihh, col_cons_none hf]

theorem runBwd_col (c : RNNCell) (frames : List (List Vec)) (hs : List Vec)
    (i : Nat) (h : Vec) (hh : hs[i]? = some h) :
    col i (runBwd c frames hs).1 = outsBwd c (col i frames) h ∧
    (runBwd c frames hs).2[i]? = some ((outsBwd c (col i frames) h).headD h) := by
  induction frames with
  | nil => exact ⟨by simp [runBwd, col, outsBwd], by simp [runBwd, col, outsBwd, hh]⟩
  | cons f rest ih =>
    obtain ⟨ihc, ihh⟩ := ih
    have hstep := stepFrame_getElem? c f (runBwd c rest hs).2 i
    have hsplit1 : (runBwd c (f :: rest) hs).1
        = (stepFrame c f (runBwd c rest hs).2).take f.length :: (runBwd c rest hs).1 := rfl
    have hsplit2 : (runBwd c (f :: rest) hs).2
        = stepFrame c f (runBwd c rest hs).2 := rfl
    cases hf : f[i]? with
    | some x =>
      have hi : i < f.length := by
        by_contra hle
        rw [List.getElem?_eq_none (by omega)] at hf
        exact Option.noConfusion hf
      have hs'i : (stepFrame c f (runBwd c rest hs).2)[i]?
          = some (c.step x ((outsBwd c (col i rest) h).headD h)) := by
        rw [hstep, ihh, hf]
        rfl
      have houtf : ((stepFrame c f (runBwd c rest hs).2).take f.length)[i]?
          = some (c.step x ((outsBwd c (col i rest) h).headD h)) := by
        rw [take_getElem?, if_pos hi, hs'i]
      constructor
      · rw [hsplit1, col_cons_some houtf, col_cons_some hf, ihc]
        rfl
      · rw [hsplit2, hs'i, col_cons_some hf]
        rfl
    | none =>
      have hi : ¬ i < f.length := by
        intro hlt
        rw [List.getElem?_eq_getElem hlt] at hf
        exact Option.noConfusion hf
      have hs'i : (stepFrame c f (runBwd c rest hs).2)[i]?
          = some ((outsBwd c (col i rest) h).headD h) := by
        rw [hstep, ihh, hf]
        rfl
      have houtf : ((stepFrame c f (runBwd c rest hs).2).take f.length)[i]? = none := by
        rw [take_getElem?, if_neg hi]
      constructor
      · rw [hsplit1, col_cons_none houtf, col_cons_none hf]
        exact ihc
      · rw [hsplit2, hs'i, col_cons_none hf]

/-! ### Frame combination and inter-layer dropout lemmas -/

theorem concatFrames_shape (A B : List (List Vec))
    (hAB : A.map List.length = B.map List.length) :
    (concatFrames A B).map List.length = A.map List.length := by
  induction A generalizing B with
  | nil => simp [concatFrames]
  | cons a A' ih =>
    cases B with
    | nil => simp at hAB
    | cons b B' =>
      simp only [List.map_cons, List.cons.injEq] at hAB
      have hcf : concatFrames (a :: A') (b :: B')
          = List.zipWith (fun x y => x ++ y) a b :: concatFrames A' B' := rfl
      rw [hcf, List.map_cons, List.map_cons, ih B' hAB.2, List.length_zipWith, hAB.1,
        Nat.min_self]

theorem concatFrames_length (A B : List (List Vec)) :
    (concatFrames A B).length = min A.length B.length := by
  simp [concatFrames]

theorem col_concatFrames (A B : List (List Vec)) (i : Nat)
    (hAB : A.map List.length = B.map List.length) :
    col i (concatFrames A B) = List.zipWith (fun a b => a ++ b) (col i A) (col i B) := by
  induction A generalizing B with
  | nil => simp [concatFrames, col]
  | cons a A' ih =>
    cases B with
    | nil => simp at hAB
    | cons b B' =>
      simp only [List.map_cons, List.cons.injEq] at hAB
      have hcf : concatFrames (a :: A') (b :: B')
          = List.zipWith (fun x y => x ++ y) a b :: concatFrames A' B' := rfl
      by_cases hi : i < a.length
      · have hib : i < b.length := hAB.1 ▸ hi
        have h1 : a[i]? = some (a.get ⟨i, hi⟩) := List.getElem?_eq_getElem hi
        have h2 : b[i]? = some (b.get ⟨i, hib⟩) := List.getElem?_eq_getElem hib
        have h3 : (List.zipWith (fun x y => x ++ y) a b)[i]?
            = some (a.get ⟨i, hi⟩ ++ b.get ⟨i, hib⟩) := by
          rw [zipWith_getElem?, h1, h2]
          rfl
        rw [hcf, col_cons_some h3, col_cons_some h1, col_cons_some h2, ih B' hAB.2]
        rfl
      · have hib : ¬ i < b.length := hAB.1 ▸ hi
        have h1 : a[i]? = none := List.getElem?_eq_none (by omega)
        have h2 : b[i]? = none := List.getElem?_eq_none (by omega)
        have h3 : (List.zipWith (fun x y => x ++ y) a b)[i]? = none := by
          rw [zipWith_getElem?, h1]
          rfl
        rw [hcf, col_cons_none h3, col_cons_none h1, col_cons_none h2, ih B' hAB.2]

theorem dropFrames_shape (p : ℚ) (mask : Nat → Nat → Nat → Bool)
    (t0 : Nat) (frames : List (List Vec)) :
    (dropFrames p mask t0 frames).map List.length = frames.map List.length := by
  induction frames generalizing t0 with
  | nil => rfl
  | cons f r ih => simp [dropFrames, mapIdxFrom_length, ih]

theorem col_nil_of_desc (i n : Nat) (r : List (List Vec))
    (hd : sortedDesc (n :: r.map List.length) = true) (hi : n ≤ i) : col i r = [] := by
  induction r generalizing n with
  | nil => rfl
  | cons g r' ih =>
    simp only [List.map_cons, sortedDesc, Bool.and_eq_true, decide_eq_true_eq] at hd
    have hg : g[i]? = none := List.getElem?_eq_none (by omega)
    rw [col_cons_none hg]
    exact ih g.length hd.2 (by omega)

theorem col_dropFrames (p : ℚ) (mask : Nat → Nat → Nat → Bool) (i : Nat)
    (frames : List (List Vec)) (t0 : Nat)
    (hd : sortedDesc (frames.map List.length) = true) :
    col i (dropFrames p mask t0 frames) = dropSeq p (fun t => mask t i) t0 (col i frames) := by
  induction frames generalizing t0 with
  | nil => simp [dropFrames, col, dropSeq]
  | cons f r ih =>
    have hsplit : dropFrames p mask t0 (f :: r)
        = mapIdxFrom (fun j v => dropVec p (mask t0 j) v) 0 f :: dropFrames p mask (t0 + 1) r := rfl
    have htail : sortedDesc (r.map List.length) = true := by
      simpa using sortedDesc_tail (a := f.length) (r := r.map List.length) (by simpa using hd)
    by_cases hi : i < f.length
    · have h1 : f[i]? = some (f.get ⟨i, hi⟩) := List.getElem?_eq_getElem hi
      have h2 : (mapIdxFrom (fun j v => dropVec p (mask t0 j) v) 0 f)[i]?
          = some (dropVec p (mask t0 i) (f.get ⟨i, hi⟩)) := by
        rw [mapIdxFrom_getElem?, h1, Nat.zero_add]
        rfl
      rw [hsplit, col_cons_some h2, col_cons_some h1, ih (t0 + 1) htail]
      rfl
    · have h1 : f[i]? = none := List.getElem?_eq_none (by omega)
      have h2 : (mapIdxFrom (fun j v => dropVec p (mask t0 j) v) 0 f)[i]? = none := by
        rw [mapIdxFrom_getElem?, h1]
        rfl
      have hnil : col i r = [] :=
        col_nil_of_desc i f.length r (by simpa using hd) (by omega)
      rw [hsplit, col_cons_none h2, col_cons_none h1, ih (t0 + 1) htail, hnil]
      rfl

/-! ### Packing lemmas -/

theorem zipFilter_length (x : List (List Vec)) (lengths : List Nat) (t : Nat)
    (hlen : x.length = lengths.length) :
    ((x.zip lengths).filterMap (fun rl =>
      if t < rl.2 then some (rl.1.getD t []) else none)).length = batchSizeAt lengths t := by
  induction x generalizing lengths with
  | nil =>
    cases lengths with
    | nil => rfl
    | cons l lr => simp at hlen
  | cons row xr ih =>
    cases lengths with
    | nil => simp at hlen
    | cons l lr =>
      simp only [List.length_cons, Nat.succ.injEq] at hlen
      simp only [List.zip_cons_cons, List.filterMap_cons, batchSizeAt, List.countP_cons]
      by_cases ht : t < l
      · simp only [if_pos ht, List.length_cons, decide_eq_true ht]
        rw [ih lr hlen]
        rfl
      · simp only [if_neg ht, decide_eq_false ht]
        rw [ih lr hlen]
        rfl

theorem timeMajor_shape (x : List (List Vec)) (lengths : List Nat)
    (hlen : x.length = lengths.length) :
    (timeMajor x lengths).map List.length
      = (List.range (maxLen lengths)).map (batchSizeAt lengths) := by
  unfold timeMajor
  rw [List.map_map]
  exact List.map_congr_left (fun t _ => zipFilter_length x lengths t hlen)

theorem timeMajor_length (x : List (List Vec)) (lengths : List Nat) :
    (timeMajor x lengths).length = maxLen lengths := by
  simp [timeMajor]

theorem zipFilter_getElem? (x : List (List Vec)) (lengths : List Nat) (t i : Nat)
    (hsorted : sortedDesc lengths = true) (hlen : x.length = lengths.length) :
    ((x.zip lengths).filterMap (fun rl =>
      if t < rl.2 then some (rl.1.getD t []) else none))[i]?
      = if t < lengths.getD i 0 ∧ i < lengths.length
        then some ((x.getD i []).getD t []) else none := by
  induction x generalizing lengths i with
  | nil =>
    cases lengths with
    | nil => simp [List.getD]
    | cons l lr => simp at hlen
  | cons row xr ih =>
    cases lengths with
    | nil => simp at hlen
    | cons l lr =>
      simp only [List.length_cons, Nat.succ.injEq] at hlen
      simp only [List.zip_cons_cons, List.filterMap_cons]
      by_cases ht : t < l
      · simp only [if_pos ht]
        cases i with
        | zero => simp [List.getD, ht]
        | succ j =>
          have := ih lr j (sortedDesc_tail hsorted) hlen
          simpa [List.getD] using this
      · have hall : ∀ a ∈ lr, a ≤ l := sortedDesc_head_ge hsorted
        have hnil : (xr.zip lr).filterMap (fun rl =>
            if t < rl.2 then some (rl.1.getD t []) else none) = [] := by
          rw [List.filterMap_eq_nil_iff]
          intro rl hrl
          have hmem : rl.2 ∈ lr := (List.of_mem_zip hrl).2
          have : rl.2 ≤ l := hall rl.2 hmem
          simp only [if_neg (by omega : ¬ t < rl.2)]
        simp only [if_neg ht, hnil]
        cases i with
        | zero => simp [List.getD, ht]
        | succ j =>
          have hj : lr.getD j 0 ≤ l := by
            by_cases hjl : j < lr.length
            · have hmem : lr.getD j 0 ∈ lr := by
                rw [List.getD_eq_getElem lr 0 hjl]
                exact List.getElem_mem hjl
              exact hall _ hmem
            · rw [List.getD_eq_default lr 0 (by omega)]
              omega
          simp only [List.getD_cons_succ, List.getElem?_nil, List.length_cons]
          rw [if_neg (by omega)]

theorem range_filterMap_lt {α : Type} (g : Nat → α) (n m : Nat) :
    (List.range m).filterMap (fun t => if t < n then some (g t) else none)
      = (List.range (min n m)).map g := by
  induction m with
  | zero => simp
  | succ m ih =>
    rw [List.range_succ, List.filterMap_append, ih]
    by_cases hm : m < n
    · have h1 : min n (m + 1) = m + 1 := by omega
      have h2 : min n m = m := by omega
      rw [h1, h2, List.range_succ, List.map_append]
      simp [hm]
    · have h1 : min n (m + 1) = min n m := by omega
      rw [h1]
      simp [hm]

theorem range_map_getD_eq_take {α : Type} (l : List α) (d : α) (n : Nat)
    (h : n ≤ l.length) :
    (List.range n).map (fun t => l.getD t d) = l.take n := by
  induction n with
  | zero => simp
  | succ m ih =>
    have hm : m < l.length := by omega
    rw [List.range_succ, List.map_append, ih (by omega), List.take_succ]
    simp [List.getD_eq_getElem l d hm, List.getElem?_eq_getElem hm]

theorem filterMap_map_eq {α β γ : Type} (g : α → β) (f : β → Option γ) (l : List α) :
    (l.map g).filterMap f = l.filterMap (fun a => f (g a)) := by
  induction l with
  | nil => rfl
  | cons a r ih => simp [List.filterMap_cons, ih]

theorem col_timeMajor (x : List (List Vec)) (lengths : List Nat) (i : Nat)
    (hsorted : sortedDesc lengths = true) (hlen : x.length = lengths.length)
    (hi : i < lengths.length) (hrow : lengths.getD i 0 ≤ (x.getD i []).length) :
    col i (timeMajor x lengths) = (x.getD i []).take (lengths.getD i 0) := by
  have h1 : col i (timeMajor x lengths)
      = (List.range (maxLen lengths)).filterMap (fun t =>
          ((x.zip lengths).filterMap (fun rl =>
            if t < rl.2 then some (rl.1.getD t []) else none))[i]?) := by
    unfold col timeMajor
    rw [filterMap_map_eq]
  have heq : ((List.range (maxLen lengths)).filterMap (fun t =>
      ((x.zip lengths).filterMap (fun rl =>
        if t < rl.2 then some (rl.1.getD t []) else none))[i]?))
      = (List.range (maxLen lengths)).filterMap (fun t =>
        if t < lengths.getD i 0 then some ((x.getD i []).getD t []) else none) :=
    List.filterMap_congr (fun t _ => by
      rw [zipFilter_getElem? x lengths t i hsorted hlen]
      by_cases ht : t < lengths.getD i 0
      · rw [if_pos ⟨ht, hi⟩, if_pos ht]
      · rw [if_neg (fun hc => ht hc.1), if_neg ht])
  rw [h1, heq, range_filterMap_lt]
  have hle : lengths.getD i 0 ≤ maxLen lengths := by
    have hmem : lengths.getD i 0 ∈ lengths := by
      rw [List.getD_eq_getElem lengths 0 hi]
      exact List.getElem_mem hi
    exact le_maxLen hmem
  rw [show min (lengths.getD i 0) (maxLen lengths) = lengths.getD i 0 by omega]
  exact range_map_getD_eq_take _ _ _ hrow

/-! ### Layer-loop lemmas -/

theorem dropFrames_length (p : ℚ) (mask : Nat → Nat → Nat → Bool)
    (t0 : Nat) (frames : List (List Vec)) :
    (dropFrames p mask t0 frames).length = frames.length := by
  induction frames generalizing t0 with
  | nil => rfl
  | cons f r ih => simp [dropFrames, ih]

theorem runLayers_fst_length (m : RNNModule) (tr : Bool)
    (mask : Nat → Nat → Nat → Nat → Bool) (B : Nat) (ls : List Nat)
    (frames : List (List Vec)) :
    (m.runLayers tr mask B ls frames).1.length = frames.length := by
  induction ls generalizing frames with
  | nil => rfl
  | cons l rest ih =>
    simp only [RNNModule.runLayers]
    rw [ih]
    by_cases hd : rest ≠ [] ∧ tr = true ∧ m.dropout ≠ 0
    · rw [if_pos hd, dropFrames_length]
      by_cases hb : m.bidirectional = true
      · rw [if_pos hb, concatFrames_length, runFwd_fst_length, runBwd_fst_length,
          Nat.min_self]
      · rw [if_neg hb, runFwd_fst_length]
    · rw [if_neg hd]
      by_cases hb : m.bidirectional = true
      · rw [if_pos hb, concatFrames_length, runFwd_fst_length, runBwd_fst_length,
          Nat.min_self]
      · rw [if_neg hb, runFwd_fst_length]

theorem runLayers_fst_shape (m : RNNModule) (tr : Bool)
    (mask : Nat → Nat → Nat → Nat → Bool) (B : Nat) (ls : List Nat)
    (frames : List (List Vec)) (hle : ∀ f ∈ frames, f.length ≤ B) :
    (m.runLayers tr mask B ls frames).1.map List.length = frames.map List.length := by
  induction ls generalizing frames with
  | nil => rfl
  | cons l rest ih =>
    have hfshape : (runFwd (m.cellF l) frames
        (List.replicate B (zerosVec m.hidden_size))).1.map List.length
        = frames.map List.length := by
      rw [runFwd_fst_shape]
      refine List.map_congr_left (fun f hf => ?_)
      rw [List.length_replicate]
      exact Nat.min_eq_left (hle f hf)
    have hbshape : (runBwd (m.cellB l) frames
        (List.replicate B (zerosVec m.hidden_size))).1.map List.length
        = frames.map List.length := by
      rw [runBwd_fst_shape]
      refine List.map_congr_left (fun f hf => ?_)
      rw [List.length_replicate]
      exact Nat.min_eq_left (hle f hf)
    have hcshape : (if m.bidirectional then
        concatFrames (runFwd (m.cellF l) frames
          (List.replicate B (zerosVec m.hidden_size))).1
          (runBwd (m.cellB l) frames
            (List.replicate B (zerosVec m.hidden_size))).1
        else (runFwd (m.cellF l) frames
          (List.replicate B (zerosVec m.hidden_size))).1).map List.length
        = frames.map List.length := by
      by_cases hb : m.bidirectional = true
      · rw [if_pos hb, concatFrames_shape _ _ (hfshape.trans hbshape.symm), hfshape]
      · rw [if_neg hb, hfshape]
    have hnshape : ∀ next : List (List Vec),
        next.map List.length = frames.map List.length →
        (m.runLayers tr mask B rest next).1.map List.length = frames.map List.length := by
      intro next hnext
      have hle' : ∀ f ∈ next, f.length ≤ B := by
        intro f hf
        have hmem : f.length ∈ next.map List.length := List.mem_map_of_mem _ hf
        rw [hnext] at hmem
        obtain ⟨g, hg, hgl⟩ := List.mem_map.mp hmem
        rw [← hgl]
        exact hle g hg
      rw [ih next hle', hnext]
    simp only [RNNModule.runLayers]
    by_cases hd : rest ≠ [] ∧ tr = true ∧ m.dropout ≠ 0
    · rw [if_pos hd]
      exact hnshape _ (by rw [dropFrames_shape]; exact hcshape)
    · rw [if_neg hd]
      exact hnshape _ hcshape

theorem runLayers_snd_length (m : RNNModule) (tr : Bool)
    (mask : Nat → Nat → Nat → Nat → Bool) (B : Nat) (ls : List Nat)
    (frames : List (List Vec)) :
    (m.runLayers tr mask B ls frames).2.length
      = (if m.bidirectional then 2 else 1) * ls.length := by
  induction ls generalizing frames with
  | nil => simp [RNNModule.runLayers]
  | cons l rest ih =>
    simp only [RNNModule.runLayers, List.length_append, ih]
    by_cases hb : m.bidirectional = true
    · simp only [if_pos hb, List.length_cons, List.length_nil]
      omega
    · simp only [if_neg hb, List.length_cons, List.length_nil]
      omega

theorem runLayers_snd_rows (m : RNNModule) (tr : Bool)
    (mask : Nat → Nat → Nat → Nat → Bool) (B : Nat) (ls : List Nat)
    (frames : List (List Vec)) :
    ∀ row ∈ (m.runLayers tr mask B ls frames).2, row.length = B := by
  induction ls generalizing frames with
  | nil => simp [RNNModule.runLayers]
  | cons l rest ih =>
    simp only [RNNModule.runLayers]
    intro row hrow
    rcases List.mem_append.mp hrow with hhere | hrest
    · have hf : (runFwd (m.cellF l) frames
          (List.replicate B (zerosVec m.hidden_size))).2.length = B := by
        rw [runFwd_snd_length, List.length_replicate]
      have hbw : (runBwd (m.cellB l) frames
          (List.replicate B (zerosVec m.hidden_size))).2.length = B := by
        rw [runBwd_snd_length, List.length_replicate]
      by_cases hb : m.bidirectional = true
      · rw [if_pos hb] at hhere
        rcases List.mem_cons.mp hhere with rfl | hhere'
        · exact hf
        · rcases List.mem_cons.mp hhere' with rfl | hnil
          · exact hbw
          · cases hnil
      · rw [if_neg hb] at hhere
        rcases List.mem_cons.mp hhere with rfl | hnil
        · exact hf
        · cases hnil
    · exact ih _ row hrest

theorem stepFrame_width (c : RNNCell) (H : Nat)
    (hc : ∀ x h, (c.step x h).length = H) (f hs : List Vec)
    (hhs : ∀ v ∈ hs, v.length = H) : ∀ v ∈ stepFrame c f hs, v.length = H := by
  induction f generalizing hs with
  | nil => simpa [stepFrame] using hhs
  | cons x fr ih =>
    cases hs with
    | nil => simp [stepFrame]
    | cons h hr =>
      intro v hv
      rcases List.mem_cons.mp hv with rfl | hv'
      · exact hc x h
      · exact ih hr (fun u hu => hhs u (List.mem_cons_of_mem h hu)) v hv'

theorem runFwd_snd_width (c : RNNCell) (H : Nat)
    (hc : ∀ x h, (c.step x h).length = H) (frames : List (List Vec)) (hs : List Vec)
    (hhs : ∀ v ∈ hs, v.length = H) :
    ∀ v ∈ (runFwd c frames hs).2, v.length = H := by
  induction frames generalizing hs with
  | nil => simpa [runFwd] using hhs
  | cons f rest ih =>
    exact ih (stepFrame c f hs) (stepFrame_width c H hc f hs hhs)

theorem runBwd_snd_width (c : RNNCell) (H : Nat)
    (hc : ∀ x h, (c.step x h).length = H) (frames : List (List Vec)) (hs : List Vec)
    (hhs : ∀ v ∈ hs, v.length = H) :
    ∀ v ∈ (runBwd c frames hs).2, v.length = H := by
  induction frames with
  | nil => simpa [runBwd] using hhs
  | cons f rest ih =>
    exact stepFrame_width c H hc f (runBwd c rest hs).2 ih

theorem runLayers_snd_width (m : RNNModule) (tr : Bool)
    (mask : Nat → Nat → Nat → Nat → Bool) (B : Nat) (ls : List Nat)
    (frames : List (List Vec))
    (hcF : ∀ l x h, ((m.cellF l).step x h).length = m.hidden_size)
    (hcB : ∀ l x h, ((m.cellB l).step x h).length = m.hidden_size) :
    ∀ row ∈ (m.runLayers tr mask B ls frames).2, ∀ v ∈ row, v.length = m.hidden_size := by
  induction ls generalizing frames with
  | nil => simp [RNNModule.runLayers]
  | cons l rest ih =>
    simp only [RNNModule.runLayers]
    intro row hrow
    have hh0 : ∀ v ∈ List.replicate B (zerosVec m.hidden_size), v.length = m.hidden_size := by
      intro v hv
      rw [List.eq_of_mem_replicate hv]
      exact List.length_replicate ..
    rcases List.mem_append.mp hrow with hhere | hrest
    · have hf := runFwd_snd_width (m.cellF l) m.hidden_size (hcF l) frames _ hh0
      have hbw := runBwd_snd_width (m.cellB l) m.hidden_size (hcB l) frames _ hh0
      by_cases hb : m.bidirectional = true
      · rw [if_pos hb] at hhere
        rcases List.mem_cons.mp hhere with rfl | hhere'
        · exact hf
        · rcases List.mem_cons.mp hhere' with rfl | hnil
          · exact hbw
          · cases hnil
      · rw [if_neg hb] at hhere
        rcases List.mem_cons.mp hhere with rfl | hnil
        · exact hf
        · cases hnil
    · exact ih _ row hrest

theorem le_of_shape_eq {frames next : List (List Vec)} (B : Nat)
    (hle : ∀ f ∈ frames, f.length ≤ B)
    (hsh : next.map List.length = frames.map List.length) :
    ∀ f ∈ next, f.length ≤ B := by
  intro f hf
  have hmem : f.length ∈ next.map List.length := List.mem_map_of_mem _ hf
  rw [hsh] at hmem
  obtain ⟨g, hg, hgl⟩ := List.mem_map.mp hmem
  rw [← hgl]
  exact hle g hg

theorem runLayers_col (m : RNNModule) (tr : Bool)
    (mask : Nat → Nat → Nat → Nat → Bool) (B : Nat) (ls : List Nat)
    (frames : List (List Vec)) (i : Nat) (hi : i < B)
    (hdesc : sortedDesc (frames.map List.length) = true)
    (hle : ∀ f ∈ frames, f.length ≤ B) :
    col i (m.runLayers tr mask B ls frames).1
      = (m.refLayers tr mask i ls (col i frames)).1 ∧
    (m.runLayers tr mask B ls frames).2.map (fun row => row[i]?)
      = ((m.refLayers tr mask i ls (col i frames)).2).map some := by
  induction ls generalizing frames with
  | nil => exact ⟨rfl, rfl⟩
  | cons l rest ih =>
    have hh0 : (List.replicate B (zerosVec m.hidden_size))[i]?
        = some (zerosVec m.hidden_size) := by
      rw [List.getElem?_eq_getElem (by simpa using hi)]
      simp
    obtain ⟨hfc, hfh⟩ := runFwd_col (m.cellF l) frames _ i _ hh0
    obtain ⟨hbc, hbh⟩ := runBwd_col (m.cellB l) frames _ i _ hh0
    have hfshape : (runFwd (m.cellF l) frames
        (List.replicate B (zerosVec m.hidden_size))).1.map List.length
        = frames.map List.length := by
      rw [runFwd_fst_shape]
      refine List.map_congr_left (fun f hf => ?_)
      rw [List.length_replicate]
      exact Nat.min_eq_left (hle f hf)
    have hshapes : (runFwd (m.cellF l) frames
        (List.replicate B (zerosVec m.hidden_size))).1.map List.length
        = (runBwd (m.cellB l) frames
          (List.replicate B (zerosVec m.hidden_size))).1.map List.length := by
      rw [runFwd_fst_shape, runBwd_fst_shape]
    by_cases hb : m.bidirectional = true
    · have hcomb : col i (concatFrames
          (runFwd (m.cellF l) frames (List.replicate B (zerosVec m.hidden_size))).1
          (runBwd (m.cellB l) frames (List.replicate B (zerosVec m.hidden_size))).1)
          = List.zipWith (fun a b => a ++ b)
            (outsOf (m.cellF l) (col i frames) (zerosVec m.hidden_size))
            (outsBwd (m.cellB l) (col i frames) (zerosVec m.hidden_size)) := by
        rw [col_concatFrames _ _ i hshapes, hfc, hbc]
      have hcombshape : (concatFrames
          (runFwd (m.cellF l) frames (List.replicate B (zerosVec m.hidden_size))).1
          (runBwd (m.cellB l) frames (List.replicate B (zerosVec m.hidden_size))).1).map
            List.length = frames.map List.length := by
        rw [concatFrames_shape _ _ hshapes, hfshape]
      by_cases hdp : rest ≠ [] ∧ tr = true ∧ m.dropout ≠ 0
      · have hdesc' : sortedDesc ((dropFrames m.dropout (fun t j => mask l t j) 0
            (concatFrames
              (runFwd (m.cellF l) frames (List.replicate B (zerosVec m.hidden_size))).1
              (runBwd (m.cellB l) frames
                (List.replicate B (zerosVec m.hidden_size))).1)).map List.length)
            = true := by
          rw [dropFrames_shape, hcombshape]
          exact hdesc
        have hle' := le_of_shape_eq B hle
          ((dropFrames_shape m.dropout (fun t j => mask l t j) 0 _).trans hcombshape)
        have hnextcol : col i (dropFrames m.dropout (fun t j => mask l t j) 0
            (concatFrames
              (runFwd (m.cellF l) frames (List.replicate B (zerosVec m.hidden_size))).1
              (runBwd (m.cellB l) frames
                (List.replicate B (zerosVec m.hidden_size))).1))
            = dropSeq m.dropout (fun t => mask l t i) 0
              (List.zipWith (fun a b => a ++ b)
                (outsOf (m.cellF l) (col i frames) (zerosVec m.hidden_size))
                (outsBwd (m.cellB l) (col i frames) (zerosVec m.hidden_size))) := by
          rw [col_dropFrames _ _ _ _ 0 (by rw [hcombshape]; exact hdesc), hcomb]
        obtain ⟨ih1, ih2⟩ := ih _ hdesc' hle'
        rw [hnextcol] at ih1 ih2
        constructor
        · simp only [RNNModule.runLayers, RNNModule.refLayers, hb, if_true, if_pos hdp]
          exact ih1
        · simp only [RNNModule.runLayers, RNNModule.refLayers, hb, if_true, if_pos hdp,
            List.map_append, List.map_cons, List.map_nil]
          rw [ih2, hfh, hbh]
          rfl
      · have hdesc' : sortedDesc ((concatFrames
            (runFwd (m.cellF l) frames (List.replicate B (zerosVec m.hidden_size))).1
            (runBwd (m.cellB l) frames
              (List.replicate B (zerosVec m.hidden_size))).1).map List.length) = true := by
          rw [hcombshape]
          exact hdesc
        have hle' := le_of_shape_eq B hle hcombshape
        obtain ⟨ih1, ih2⟩ := ih _ hdesc' hle'
        rw [hcomb] at ih1 ih2
        constructor
        · simp only [RNNModule.runLayers, RNNModule.refLayers, hb, if_true, if_neg hdp]
          exact ih1
        · simp only [RNNModule.runLayers, RNNModule.refLayers, hb, if_true, if_neg hdp,
            List.map_append, List.map_cons, List.map_nil]
          rw [ih2, hfh, hbh]
          rfl
    · have hbf : m.bidirectional = false := by
        cases hbe : m.bidirectional
        · rfl
        · exact absurd hbe hb
      by_cases hdp : rest ≠ [] ∧ tr = true ∧ m.dropout ≠ 0
      · have hdesc' : sortedDesc ((dropFrames m.dropout (fun t j => mask l t j) 0
            (runFwd (m.cellF l) frames
              (List.replicate B (zerosVec m.hidden_size))).1).map List.length) = true := by
          rw [dropFrames_shape, hfshape]
          exact hdesc
        have hle' := le_of_shape_eq B hle
          ((dropFrames_shape m.dropout (fun t j => mask l t j) 0 _).trans hfshape)
        have hnextcol : col i (dropFrames m.dropout (fun t j => mask l t j) 0
            (runFwd (m.cellF l) frames (List.replicate B (zerosVec m.hidden_size))).1)
            = dropSeq m.dropout (fun t => mask l t i) 0
              (outsOf (m.cellF l) (col i frames) (zerosVec m.hidden_size)) := by
          rw [col_dropFrames _ _ _ _ 0 (by rw [hfshape]; exact hdesc), hfc]
        obtain ⟨ih1, ih2⟩ := ih _ hdesc' hle'
        rw [hnextcol] at ih1 ih2
        constructor
        · simp only [RNNModule.runLayers, RNNModule.refLayers, hbf, Bool.false_eq_true,
            if_false, if_pos hdp]
          exact ih1
        · simp only [RNNModule.runLayers, RNNModule.refLayers, hbf, Bool.false_eq_true,
            if_false, if_pos hdp, List.map_append, List.map_cons, List.map_nil]
          rw [ih2, hfh]
      · have hdesc' : sortedDesc (((runFwd (m.cellF l) frames
            (List.replicate B (zerosVec m.hidden_size))).1).map List.length) = true := by
          rw [hfshape]
          exact hdesc
        have hle' := le_of_shape_eq B hle hfshape
        obtain ⟨ih1, ih2⟩ := ih _ hdesc' hle'
        rw [hfc] at ih1 ih2
        constructor
        · simp only [RNNModule.runLayers, RNNModule.refLayers, hbf, Bool.false_eq_true,
            if_false, if_neg hdp]
          exact ih1
        · simp only [RNNModule.runLayers, RNNModule.refLayers, hbf, Bool.false_eq_true,
            if_false, if_neg hdp, List.map_append, List.map_cons, List.map_nil]
          rw [ih2, hfh]

/-! ### Forward-pass plumbing lemmas -/

theorem Embedding.forward_ok (e : Embedding) (inputs : List (List Nat))
    (h : ∀ row ∈ inputs, ∀ idx ∈ row, idx < e.num_embeddings) :
    e.forward inputs = Except.ok (inputs.map (fun row =>
      row.map (fun idx => e.weight.getD idx (zerosVec e.embedding_dim)))) := by
  unfold Embedding.forward
  refine exceptMap_ok_of_forall _ _ _ (fun row hrow => ?_)
  exact exceptMap_ok_of_forall _ _ _ (fun idx hidx => by
    simp [Embedding.lookupIdx, h row hrow idx hidx])

theorem dropSeq_eq_mapIdxFrom (p : ℚ) (msk : Nat → Nat → Bool) (k : Nat)
    (row : List Vec) :
    dropSeq p msk k row = mapIdxFrom (fun t v => dropVec p (msk t) v) k row := by
  induction row generalizing k with
  | nil => rfl
  | cons v r ih => simp [dropSeq, mapIdxFrom, ih]

theorem dropSeq_length (p : ℚ) (msk : Nat → Nat → Bool) (k : Nat) (row : List Vec) :
    (dropSeq p msk k row).length = row.length := by
  rw [dropSeq_eq_mapIdxFrom, mapIdxFrom_length]

theorem Dropout.forward_getElem? (d : Dropout) (tr : Bool)
    (mask : Nat → Nat → Nat → Bool) (x : List (List Vec)) (i : Nat) :
    (d.forward tr mask x)[i]? = (x[i]?).map (fun row =>
      if tr = true ∧ d.p ≠ 0 then dropSeq d.p (mask i) 0 row else row) := by
  unfold Dropout.forward
  by_cases hc : tr = true ∧ d.p ≠ 0
  · rw [if_pos hc, mapIdxFrom_getElem?, Nat.zero_add]
    cases x[i]? with
    | none => rfl
    | some row => simp [hc, dropSeq_eq_mapIdxFrom]
  · rw [if_neg hc]
    cases x[i]? with
    | none => rfl
    | some row => simp [hc]

theorem mapIdxFrom_map_length (g : Nat → List Vec → List Vec)
    (hg : ∀ i row, (g i row).length = row.length) (k : Nat) (x : List (List Vec)) :
    (mapIdxFrom g k x).map List.length = x.map List.length := by
  induction x generalizing k with
  | nil => rfl
  | cons row r ih => simp [mapIdxFrom, hg, ih]

theorem Dropout.forward_shape (d : Dropout) (tr : Bool)
    (mask : Nat → Nat → Nat → Bool) (x : List (List Vec)) :
    (d.forward tr mask x).map List.length = x.map List.length := by
  unfold Dropout.forward
  by_cases hc : tr = true ∧ d.p ≠ 0
  · rw [if_pos hc]
    exact mapIdxFrom_map_length _ (fun i row => mapIdxFrom_length _ _ _) 0 x
  · rw [if_neg hc]

theorem Dropout.forward_length (d : Dropout) (tr : Bool)
    (mask : Nat → Nat → Nat → Bool) (x : List (List Vec)) :
    (d.forward tr mask x).length = x.length := by
  have := congrArg List.length (d.forward_shape tr mask x)
  simpa using this

theorem Dropout.forward_not_training (d : Dropout)
    (mask : Nat → Nat → Nat → Bool) (x : List (List Vec)) :
    d.forward false mask x = x := by
  unfold Dropout.forward
  rw [if_neg (by simp)]

theorem outsOf_length (c : RNNCell) (xs : List Vec) (h : Vec) :
    (outsOf c xs h).length = xs.length := by
  induction xs generalizing h with
  | nil => rfl
  | cons x r ih => simp [outsOf, ih]

theorem outsBwd_length (c : RNNCell) (xs : List Vec) (h : Vec) :
    (outsBwd c xs h).length = xs.length := by
  induction xs with
  | nil => rfl
  | cons x r ih => simp [outsBwd, ih]

theorem refLayers_fst_length (m : RNNModule) (tr : Bool)
    (mask : Nat → Nat → Nat → Nat → Bool) (i : Nat) (ls : List Nat) (xs : List Vec) :
    (m.refLayers tr mask i ls xs).1.length = xs.length := by
  induction ls generalizing xs with
  | nil => rfl
  | cons l rest ih =>
    simp only [RNNModule.refLayers]
    rw [ih]
    by_cases hd : rest ≠ [] ∧ tr = true ∧ m.dropout ≠ 0
    · rw [if_pos hd, dropSeq_length]
      by_cases hb : m.bidirectional = true
      · rw [if_pos hb, List.length_zipWith, outsOf_length, outsBwd_length, Nat.min_self]
      · rw [if_neg hb, outsOf_length]
    · rw [if_neg hd]
      by_cases hb : m.bidirectional = true
      · rw [if_pos hb, List.length_zipWith, outsOf_length, outsBwd_length, Nat.min_self]
      · rw [if_neg hb, outsOf_length]

theorem headD_length (x : List (List Vec)) :
    (x.headD []).length = (x.map List.length).headD 0 := by
  cases x <;> rfl

theorem batch_sizes_headD (lengths : List Nat) (hpos : ∀ l ∈ lengths, 0 < l) :
    ((List.range (maxLen lengths)).map (batchSizeAt lengths)).headD 0
      = lengths.length := by
  cases lengths with
  | nil => rfl
  | cons a lr =>
    have hmax : 0 < maxLen (a :: lr) :=
      lt_of_lt_of_le (hpos a (List.mem_cons_self a lr)) (le_maxLen (List.mem_cons_self a lr))
    obtain ⟨k, hk⟩ : ∃ k, maxLen (a :: lr) = k + 1 :=
      ⟨maxLen (a :: lr) - 1, by omega⟩
    rw [hk, List.range_succ_eq_map, List.map_cons, List.headD_cons]
    exact batchSizeAt_zero_of_pos (a :: lr) hpos

theorem timeMajor_frame_le (D : List (List Vec)) (lengths : List Nat)
    (hlen : D.length = lengths.length) :
    ∀ f ∈ timeMajor D lengths, f.length ≤ lengths.length := by
  intro f hf
  have hmem : f.length ∈ (timeMajor D lengths).map List.length :=
    List.mem_map_of_mem _ hf
  rw [timeMajor_shape _ _ hlen] at hmem
  obtain ⟨t, _, ht⟩ := List.mem_map.mp hmem
  rw [← ht]
  exact batchSizeAt_le_length lengths t

theorem pack_ok (x : List (List Vec)) (lengths : List Nat)
    (h1 : x.length = lengths.length) (h2 : sortedDesc lengths = true)
    (h3 : ∀ l ∈ lengths, 0 < l) (h4 : maxLen lengths ≤ (x.headD []).length) :
    pack_padded_sequence x lengths = Except.ok
      { data := timeMajor x lengths
        batch_sizes := (List.range (maxLen lengths)).map (batchSizeAt lengths) } := by
  unfold pack_padded_sequence
  rw [if_pos h1, if_pos h2, if_pos (by
      rw [List.all_eq_true]
      intro l hl
      simpa using h3 l hl), if_pos h4]

theorem pad_length (p : PackedSeq) :
    (pad_packed_sequence p).1.length = p.batch_sizes.headD 0 := by
  simp [pad_packed_sequence]

theorem pad_rows (p : PackedSeq) :
    ∀ row ∈ (pad_packed_sequence p).1, row.length = p.data.length := by
  intro row hrow
  obtain ⟨i, _, hr⟩ := List.mem_map.mp hrow
  have hcle : (p.data.filterMap (fun f => f[i]?)).length ≤ p.data.length :=
    List.length_filterMap_le _ _
  rw [← hr]
  simp only [List.length_append, List.length_replicate]
  omega

theorem pad_getElem? (data : List (List Vec)) (bs : List Nat) (i : Nat)
    (hi : i < bs.headD 0) :
    (pad_packed_sequence ⟨data, bs⟩).1[i]? = some (col i data
      ++ List.replicate (data.length - (col i data).length)
        (zerosVec (((data.headD []).headD []).length))) := by
  unfold pad_packed_sequence col
  rw [List.getElem?_map, List.getElem?_range hi]
  rfl

theorem forward_unfold (m : EncoderRNN) (tr : Bool) (masks : DropMasks)
    (inputs : List (List Nat)) (input_lengths : List Nat) (E : List (List Vec))
    (hE : m.embedding.forward inputs = Except.ok E) :
    m.forward tr masks inputs input_lengths =
      (pack_padded_sequence (m.input_dropout.forward tr masks.inputMask E)
        input_lengths).map (fun packed =>
          ((pad_packed_sequence (m.rnn.runPacked tr masks.layerMask packed).1).1,
           (m.rnn.runPacked tr masks.layerMask packed).2)) := by
  unfold EncoderRNN.forward
  rw [hE]
  cases hp : pack_padded_sequence (m.input_dropout.forward tr masks.inputMask E)
      input_lengths with
  | error e => simp [hp, Except.map, Except.bind, Bind.bind]
  | ok packed => simp [hp, Except.map, Except.bind, Bind.bind, pure, Except.pure]

theorem getD_of_getElem? {α : Type} {l : List α} {i : Nat} {a : α} (d : α)
    (h : l[i]? = some a) : l.getD i d = a := by
  have hi : i < l.length := by
    by_contra hle
    rw [List.getElem?_eq_none (by omega)] at h
    exact Option.noConfusion h
  rw [List.getD_eq_getElem l d hi]
  rw [List.getElem?_eq_getElem hi] at h
  exact Option.some.inj h

theorem refSeqInput_length (m : EncoderRNN) (tr : Bool) (masks : DropMasks)
    (i : Nat) (row : List Nat) (len : Nat) :
    (m.refSeqInput tr masks i row len).length = min len row.length := by
  simp only [EncoderRNN.refSeqInput]
  by_cases hc : tr = true ∧ m.input_dropout.p ≠ 0
  · rw [if_pos hc, List.length_take, dropSeq_length, List.length_map]
  · rw [if_neg hc, List.length_take, List.length_map]

/-- The full behaviour of a well-formed forward call: it succeeds; the
output is batch-major with one row per input sequence, each row padded to
the maximum true length; the hidden stack has `directions × num_layers`
rows of `batch` entries; and row `i` of both results is the per-sequence
reference computation of input sequence `i`. -/
theorem forward_spec (m : EncoderRNN) (tr : Bool) (masks : DropMasks)
    (inputs : List (List Nat)) (lengths : List Nat) (T : Nat)
    (hv : validCall m inputs lengths T) :
    ∃ out hidden, m.forward tr masks inputs lengths = Except.ok (out, hidden) ∧
      out.length = lengths.length ∧
      (∀ row ∈ out, row.length = maxLen lengths) ∧
      hidden.length = (if m.rnn.bidirectional then 2 else 1) * m.rnn.num_layers ∧
      (∀ row ∈ hidden, row.length = lengths.length) ∧
      (∀ i, i < lengths.length →
        (out.getD i []).take (lengths.getD i 0)
          = m.rnn.refEncode tr masks.layerMask i
              (m.refSeqInput tr masks i (inputs.getD i []) (lengths.getD i 0))) ∧
      (∀ i, i < lengths.length →
        hidden.map (fun row => row[i]?)
          = (m.rnn.refHidden tr masks.layerMask i
              (m.refSeqInput tr masks i (inputs.getD i []) (lengths.getD i 0))).map some) := by
  obtain ⟨hlen, hsorted, hpos, hrect, hmaxT, hemb⟩ := hv
  have hE : m.embedding.forward inputs = Except.ok (embedBatch m inputs) :=
    Embedding.forward_ok m.embedding inputs hemb
  have hEshape : (embedBatch m inputs).map List.length = inputs.map List.length := by
    unfold embedBatch
    rw [List.map_map]
    exact List.map_congr_left (fun row _ => List.length_map _ _)
  have hDshape : (m.input_dropout.forward tr masks.inputMask
      (embedBatch m inputs)).map List.length = inputs.map List.length := by
    rw [Dropout.forward_shape]
    exact hEshape
  have hDlen : (m.input_dropout.forward tr masks.inputMask
      (embedBatch m inputs)).length = lengths.length := by
    have hc := congrArg List.length hDshape
    simp only [List.length_map] at hc
    omega
  have hhead : maxLen lengths ≤ ((m.input_dropout.forward tr masks.inputMask
      (embedBatch m inputs)).headD []).length := by
    rw [headD_length, hDshape]
    cases hx : inputs with
    | nil =>
      have hnil : lengths = [] := by
        rw [hx] at hlen
        exact (List.eq_nil_of_length_eq_zero hlen.symm)
      simp [hnil, maxLen]
    | cons row r =>
      simp only [List.map_cons, List.headD_cons]
      rw [hrect row (by rw [hx]; exact List.mem_cons_self row r)]
      exact hmaxT
  have hpack := pack_ok (m.input_dropout.forward tr masks.inputMask (embedBatch m inputs))
    lengths hDlen hsorted hpos hhead
  have hforward := forward_unfold m tr masks inputs lengths _ hE
  rw [hpack] at hforward
  simp only [Except.map] at hforward
  have hB : ((List.range (maxLen lengths)).map (batchSizeAt lengths)).headD 0
      = lengths.length := batch_sizes_headD lengths hpos
  have hrp : m.rnn.runPacked tr masks.layerMask
      ⟨timeMajor (m.input_dropout.forward tr masks.inputMask
          (embedBatch m inputs)) lengths,
        (List.range (maxLen lengths)).map (batchSizeAt lengths)⟩
      = (⟨(m.rnn.runLayers tr masks.layerMask lengths.length
            (List.range m.rnn.num_layers)
            (timeMajor (m.input_dropout.forward tr masks.inputMask
              (embedBatch m inputs)) lengths)).1,
           (List.range (maxLen lengths)).map (batchSizeAt lengths)⟩,
         (m.rnn.runLayers tr masks.layerMask lengths.length
            (List.range m.rnn.num_layers)
            (timeMajor (m.input_dropout.forward tr masks.inputMask
              (embedBatch m inputs)) lengths)).2) := by
    unfold RNNModule.runPacked
    rw [show (PackedSeq.mk (timeMajor (m.input_dropout.forward tr masks.inputMask
          (embedBatch m inputs)) lengths)
          ((List.range (maxLen lengths)).map (batchSizeAt lengths))).batch_sizes.headD 0
          = lengths.length from hB]
  rw [hrp] at hforward
  have hrows : ∀ i, i < lengths.length →
      (((pad_packed_sequence
          ⟨(m.rnn.runLayers tr masks.layerMask lengths.length
              (List.range m.rnn.num_layers)
              (timeMajor (m.input_dropout.forward tr masks.inputMask
                (embedBatch m inputs)) lengths)).1,
            (List.range (maxLen lengths)).map (batchSizeAt lengths)⟩).1.getD
          i []).take (lengths.getD i 0)
        = m.rnn.refEncode tr masks.layerMask i
            (m.refSeqInput tr masks i (inputs.getD i []) (lengths.getD i 0))) ∧
      ((m.rnn.runLayers tr masks.layerMask lengths.length
          (List.range m.rnn.num_layers)
          (timeMajor (m.input_dropout.forward tr masks.inputMask
            (embedBatch m inputs)) lengths)).2.map (fun row => row[i]?)
        = (m.rnn.refHidden tr masks.layerMask i
            (m.refSeqInput tr masks i (inputs.getD i []) (lengths.getD i 0))).map some) := by
    intro i hi
    have hdesc : sortedDesc ((timeMajor (m.input_dropout.forward tr masks.inputMask
        (embedBatch m inputs)) lengths).map List.length) = true := by
      rw [timeMajor_shape _ _ hDlen]
      exact sortedDesc_range_map _ (batchSizeAt_antitone lengths) _
    have hle := timeMajor_frame_le _ lengths hDlen
    have hcols := runLayers_col m.rnn tr masks.layerMask lengths.length
      (List.range m.rnn.num_layers) _ i hi hdesc hle
    have hii : i < inputs.length := by omega
    have hinp : inputs[i]? = some (inputs.getD i []) := by
      rw [List.getElem?_eq_getElem hii, List.getD_eq_getElem _ _ hii]
    have hEi : (embedBatch m inputs)[i]?
        = some ((inputs.getD i []).map (fun idx =>
          m.embedding.weight.getD idx (zerosVec m.embedding.embedding_dim))) := by
      unfold embedBatch
      rw [List.getElem?_map, hinp]
      rfl
    have hDi : (m.input_dropout.forward tr masks.inputMask (embedBatch m inputs))[i]?
        = some (if tr = true ∧ m.input_dropout.p ≠ 0 then
            dropSeq m.input_dropout.p (masks.inputMask i) 0
              ((inputs.getD i []).map (fun idx =>
                m.embedding.weight.getD idx (zerosVec m.embedding.embedding_dim)))
          else (inputs.getD i []).map (fun idx =>
            m.embedding.weight.getD idx (zerosVec m.embedding.embedding_dim))) := by
      rw [Dropout.forward_getElem?, hEi]
      rfl
    have hTrow : (inputs.getD i []).length = T := by
      refine hrect _ ?_
      rw [List.getD_eq_getElem _ _ hii]
      exact List.getElem_mem hii
    have hDrowlen : ((m.input_dropout.forward tr masks.inputMask
        (embedBatch m inputs)).getD i []).length = T := by
      rw [getD_of_getElem? [] hDi]
      by_cases hc : tr = true ∧ m.input_dropout.p ≠ 0
      · rw [if_pos hc, dropSeq_length, List.length_map, hTrow]
      · rw [if_neg hc, List.length_map, hTrow]
    have hlenle : lengths.getD i 0 ≤ T := by
      have hmem : lengths.getD i 0 ∈ lengths := by
        rw [List.getD_eq_getElem lengths 0 hi]
        exact List.getElem_mem hi
      exact le_trans (le_maxLen hmem) hmaxT
    have hcolTM : col i (timeMajor (m.input_dropout.forward tr masks.inputMask
        (embedBatch m inputs)) lengths)
        = m.refSeqInput tr masks i (inputs.getD i []) (lengths.getD i 0) := by
      rw [col_timeMajor _ lengths i hsorted hDlen hi (by rw [hDrowlen]; exact hlenle)]
      rw [getD_of_getElem? [] hDi]
      simp only [EncoderRNN.refSeqInput]
    rw [hcolTM] at hcols
    obtain ⟨hc1, hc2⟩ := hcols
    constructor
    · have hpadi := pad_getElem?
          (m.rnn.runLayers tr masks.layerMask lengths.length
              (List.range m.rnn.num_layers)
              (timeMajor (m.input_dropout.forward tr masks.inputMask
                (embedBatch m inputs)) lengths)).1
          ((List.range (maxLen lengths)).map (batchSizeAt lengths))
          i (by rw [hB]; exact hi)
      rw [getD_of_getElem? [] hpadi]
      have hcorelen : (col i ((m.rnn.runLayers tr masks.layerMask lengths.length
          (List.range m.rnn.num_layers)
          (timeMajor (m.input_dropout.forward tr masks.inputMask
            (embedBatch m inputs)) lengths)).1)).length = lengths.getD i 0 := by
        rw [hc1, refLayers_fst_length, refSeqInput_length, hTrow]
        omega
      rw [List.take_append_eq_append_take, hcorelen,
        show (lengths.getD i 0) - (lengths.getD i 0) = 0 by omega,
        List.take_zero, List.append_nil,
        List.take_of_length_le (le_of_eq hcorelen)]
      exact hc1
    · exact hc2
  exact ⟨_, _, hforward,
    by rw [pad_length, hB],
    fun row hrow => by
      rw [pad_rows _ row hrow, runLayers_fst_length, timeMajor_length],
    by rw [runLayers_snd_length, List.length_range],
    fun row hrow => runLayers_snd_rows _ _ _ _ _ _ row hrow,
    fun i hi => (hrows i hi).1,
    fun i hi => (hrows i hi).2⟩

/-! ### Construction lemmas and dropout-independence lemmas -/

theorem lookup_cases {rnn_type : String} {cell : RNNType}
    (h : supported_rnns.lookup rnn_type = some cell) :
    rnn_type = "lstm" ∨ rnn_type = "gru" ∨ rnn_type = "rnn" := by
  by_cases h1 : rnn_type = "lstm"
  · exact Or.inl h1
  by_cases h2 : rnn_type = "gru"
  · exact Or.inr (Or.inl h2)
  by_cases h3 : rnn_type = "rnn"
  · exact Or.inr (Or.inr h3)
  have e1 : (rnn_type == "lstm") = false := by simp [h1]
  have e2 : (rnn_type == "gru") = false := by simp [h2]
  have e3 : (rnn_type == "rnn") = false := by simp [h3]
  have hnone : supported_rnns.lookup rnn_type = none := by
    simp [supported_rnns, List.lookup, e1, e2, e3]
  rw [hnone] at h
  exact Option.noConfusion h

/-- With a single layer, the recurrent stack's inter-layer dropout is never
applied: the layer loop is unchanged when the configured stack dropout is
replaced by 0. -/
theorem runLayers_single_layer_dropout_free (m : RNNModule)
    (h1 : m.num_layers = 1) (tr : Bool) (mask : Nat → Nat → Nat → Nat → Bool)
    (B : Nat) (frames : List (List Vec)) :
    m.runLayers tr mask B (List.range m.num_layers) frames
      = ({ m with dropout := 0 } : RNNModule).runLayers tr mask B
          (List.range m.num_layers) frames := by
  rw [h1]
  rfl

/-- Outside training mode the layer loop ignores the configured dropout. -/
theorem runLayers_eval_dropout_free (m : RNNModule)
    (mask : Nat → Nat → Nat → Nat → Bool) (B : Nat) (ls : List Nat)
    (frames : List (List Vec)) :
    m.runLayers false mask B ls frames
      = ({ m with dropout := 0 } : RNNModule).runLayers false mask B ls frames := by
  induction ls generalizing frames with
  | nil => rfl
  | cons l rest ih =>
    simp only [RNNModule.runLayers, Bool.false_eq_true, false_and, and_false,
      if_false, ih]

/-- Outside training mode the whole forward pass ignores the configured
dropout probabilities (both the input dropout and the stack dropout). -/
theorem forward_eval_dropout_free (m : EncoderRNN) (masks : DropMasks)
    (inputs : List (List Nat)) (input_lengths : List Nat) :
    m.forward false masks inputs input_lengths
      = (zeroDropout m).forward false masks inputs input_lengths := by
  unfold EncoderRNN.forward RNNModule.runPacked zeroDropout
  simp only [Dropout.forward_not_training, runLayers_eval_dropout_free]

/-! ### Claim theorems -/

/-- C1 counterexample: the string "LSTM" is not in the supported key set
{lstm, gru, rnn}, yet construction with it does not fail with the
configuration (assertion) error — it fails with the dict lookup KeyError —
so "fails with a configuration error exactly when the string is not in the
supported set" is false as stated. -/
theorem C1_counterexample :
    supportedKeys.contains "LSTM" = false ∧
    EncoderRNN.init 10 8 ((1 : ℚ) / 2) 5 true "LSTM" W0
      = Except.error (InitError.keyError "LSTM") ∧
    InitError.keyError "LSTM" ≠ InitError.assertionError "RNN type not supported." :=
  ⟨by decide, rfl, by decide⟩

/-- C1 (amended): the configuration (assertion) error is raised exactly when
the lowercased variant name is outside the supported key set; for a name
that is exactly a supported key, construction succeeds returning the module
with all three sub-layers built from the given configuration; construction
returns a module exactly when the case-sensitive dict lookup succeeds, and
otherwise returns an error with nothing allocated (all-or-nothing). -/
theorem C1_init_all_or_nothing (in_features hidden_size : Nat) (dropout_p : ℚ)
    (n_layers : Nat) (bidirectional : Bool) (rnn_type : String) (w : WeightInit) :
    ((∃ msg, EncoderRNN.init in_features hidden_size dropout_p n_layers bidirectional
        rnn_type w = Except.error (InitError.assertionError msg))
      ↔ supportedKeys.contains (pyLower rnn_type) = false) ∧
    (∀ cell, supported_rnns.lookup rnn_type = some cell →
      EncoderRNN.init in_features hidden_size dropout_p n_layers bidirectional rnn_type w
        = Except.ok
          { rnn_cell := cell
            embedding := ⟨in_features, hidden_size, w.embW⟩
            input_dropout := ⟨dropout_p⟩
            rnn := ⟨hidden_size, hidden_size, n_layers, true, bidirectional, dropout_p,
              w.cellF, w.cellB⟩ }) ∧
    ((∃ m', EncoderRNN.init in_features hidden_size dropout_p n_layers bidirectional
        rnn_type w = Except.ok m') ↔ supported_rnns.lookup rnn_type ≠ none) := by
  refine ⟨⟨?_, ?_⟩, ?_, ⟨?_, ?_⟩⟩
  · rintro ⟨msg, hmsg⟩
    cases hc : supportedKeys.contains (pyLower rnn_type)
    · rfl
    · exfalso
      unfold EncoderRNN.init at hmsg
      rw [if_pos hc] at hmsg
      cases hlk : supported_rnns.lookup rnn_type with
      | some cell =>
        rw [hlk] at hmsg
        exact Except.noConfusion hmsg
      | none =>
        rw [hlk] at hmsg
        exact InitError.noConfusion (Except.error.inj hmsg)
  · intro hc
    refine ⟨"RNN type not supported.", ?_⟩
    unfold EncoderRNN.init
    rw [if_neg (fun h => Bool.noConfusion (hc ▸ h))]
  · intro cell hcell
    rcases lookup_cases hcell with rfl | rfl | rfl
    · have : cell = RNNType.lstm := Option.some.inj hcell.symm
      subst this
      rfl
    · have : cell = RNNType.gru := Option.some.inj hcell.symm
      subst this
      rfl
    · have : cell = RNNType.rnn := Option.some.inj hcell.symm
      subst this
      rfl
  · rintro ⟨m', hm⟩ hnone
    unfold EncoderRNN.init at hm
    by_cases hc : supportedKeys.contains (pyLower rnn_type) = true
    · rw [if_pos hc, hnone] at hm
      exact Except.noConfusion hm
    · rw [if_neg hc] at hm
      exact Except.noConfusion hm
  · intro hne
    cases hlk : supported_rnns.lookup rnn_type with
    | none => exact absurd hlk hne
    | some cell =>
      rcases lookup_cases hlk with rfl | rfl | rfl
      · exact ⟨_, rfl⟩
      · exact ⟨_, rfl⟩
      · exact ⟨_, rfl⟩

/-- C1 witness: construction with the exact key "gru" succeeds with the
expected module, and the success-iff-lookup equivalence holds at the
unsupported string "xyz". -/
theorem C1_witness :
    (EncoderRNN.init 10 8 ((1 : ℚ) / 2) 5 true "gru" W0 = Except.ok Mgru) ∧
    ((∃ m', EncoderRNN.init 10 8 ((1 : ℚ) / 2) 5 true "xyz" W0 = Except.ok m')
      ↔ supported_rnns.lookup "xyz" ≠ none) :=
  ⟨(C1_init_all_or_nothing 10 8 ((1 : ℚ) / 2) 5 true "gru" W0).2.1 RNNType.gru (by decide),
   (C1_init_all_or_nothing 10 8 ((1 : ℚ) / 2) 5 true "xyz" W0).2.2⟩

/-- C9: a variant name whose lowercase form is a supported key but which is
not written exactly as stored passes the assertion and then fails with the
dict-lookup KeyError carrying the original string, not with the
configuration error. -/
theorem C9_mixed_case_key_error (in_features hidden_size : Nat) (dropout_p : ℚ)
    (n_layers : Nat) (bidirectional : Bool) (rnn_type : String) (w : WeightInit)
    (h1 : supportedKeys.contains (pyLower rnn_type) = true)
    (h2 : supported_rnns.lookup rnn_type = none) :
    EncoderRNN.init in_features hidden_size dropout_p n_layers bidirectional rnn_type w
      = Except.error (InitError.keyError rnn_type) := by
  unfold EncoderRNN.init
  rw [if_pos h1, h2]

/-- C9 witness: "LSTM" passes the lowercased membership check and fails the
exact lookup, so construction raises the KeyError. -/
theorem C9_witness :
    EncoderRNN.init 10 8 ((1 : ℚ) / 2) 5 true "LSTM" W0
      = Except.error (InitError.keyError "LSTM") :=
  C9_mixed_case_key_error 10 8 ((1 : ℚ) / 2) 5 true "LSTM" W0 (by decide) (by decide)

/-- C10: the single configured dropout probability is wired to both the
input dropout applied in forward and the recurrent stack's inter-layer
dropout; they cannot be set independently. -/
theorem C10_shared_dropout (in_features hidden_size : Nat) (dropout_p : ℚ)
    (n_layers : Nat) (bidirectional : Bool) (rnn_type : String) (w : WeightInit)
    (m : EncoderRNN)
    (h : EncoderRNN.init in_features hidden_size dropout_p n_layers bidirectional
      rnn_type w = Except.ok m) :
    m.input_dropout.p = dropout_p ∧ m.rnn.dropout = dropout_p := by
  unfold EncoderRNN.init at h
  by_cases hc : supportedKeys.contains (pyLower rnn_type) = true
  · rw [if_pos hc] at h
    cases hlk : supported_rnns.lookup rnn_type with
    | some cell =>
      rw [hlk] at h
      have hm := Except.ok.inj h
      rw [← hm]
      exact ⟨rfl, rfl⟩
    | none =>
      rw [hlk] at h
      exact Except.noConfusion h
  · rw [if_neg hc] at h
    exact Except.noConfusion h

/-- C10 witness: the module built with dropout_p = 1/2 has both dropouts
equal to 1/2. -/
theorem C10_witness :
    Mgru.input_dropout.p = (1 : ℚ) / 2 ∧ Mgru.rnn.dropout = (1 : ℚ) / 2 :=
  C10_shared_dropout 10 8 ((1 : ℚ) / 2) 5 true "gru" W0 Mgru rfl

/-- C4: every forward call is exactly the five-step pipeline — embedding
lookup on every index, input dropout, packing by the true lengths, the
recurrent stack, unpacking — returning the (features, hidden) pair; and the
dropout step is the identity when the module is not in training mode. -/
theorem C4_forward_pipeline (m : EncoderRNN) (tr : Bool) (masks : DropMasks)
    (inputs : List (List Nat)) (input_lengths : List Nat) :
    (m.forward tr masks inputs input_lengths
      = (do
          let embedded ← m.embedding.forward inputs
          let dropped := m.input_dropout.forward tr masks.inputMask embedded
          let packed ← pack_padded_sequence dropped input_lengths
          let r := m.rnn.runPacked tr masks.layerMask packed
          Except.ok ((pad_packed_sequence r.1).1, r.2))) ∧
    (∀ x, m.input_dropout.forward false masks.inputMask x = x) :=
  ⟨rfl, fun x => Dropout.forward_not_training _ _ x⟩

/-- C7: forward is a pure per-call transform: in state-passing form the
module comes back unchanged, and a second call on the returned state with
the same inputs, mode and masks produces the identical result. -/
theorem C7_forward_pure (m : EncoderRNN) (tr : Bool) (masks : DropMasks)
    (inputs : List (List Nat)) (input_lengths : List Nat) :
    (m.forwardS tr masks inputs input_lengths).2 = m ∧
    ((m.forwardS tr masks inputs input_lengths).2.forwardS tr masks inputs
        input_lengths).1
      = (m.forwardS tr masks inputs input_lengths).1 :=
  ⟨rfl, rfl⟩

/-- C8: forward adds no validation of the lengths array: once the embedding
lookup has succeeded, the call fails exactly when `pack_padded_sequence`
fails, and with that same error propagated unchanged; and every call either
returns a full result or a single error (no partial results). -/
theorem C8_error_propagation (m : EncoderRNN) (tr : Bool) (masks : DropMasks)
    (inputs : List (List Nat)) (input_lengths : List Nat) (E : List (List Vec))
    (hE : m.embedding.forward inputs = Except.ok E) :
    (∀ e, m.forward tr masks inputs input_lengths = Except.error e ↔
      pack_padded_sequence (m.input_dropout.forward tr masks.inputMask E)
        input_lengths = Except.error e) ∧
    ((∃ r, m.forward tr masks inputs input_lengths = Except.ok r) ∨
     (∃ e, m.forward tr masks inputs input_lengths = Except.error e)) := by
  have hu := forward_unfold m tr masks inputs input_lengths E hE
  constructor
  · intro e
    rw [hu]
    cases hp : pack_padded_sequence (m.input_dropout.forward tr masks.inputMask E)
        input_lengths with
    | error e' => simp [Except.map]
    | ok packed => simp [Except.map]
  · rw [hu]
    cases hp : pack_padded_sequence (m.input_dropout.forward tr masks.inputMask E)
        input_lengths with
    | error e' => exact Or.inr ⟨e', rfl⟩
    | ok packed => exact Or.inl ⟨_, rfl⟩

/-- C8 witness: a batch of two rows declared with a one-entry lengths array
makes forward fail with exactly the packing utility's mismatch error. -/
theorem C8_witness :
    M0.forward false masksKeep [[0], [1]] [1] = Except.error FwdError.lengthsMismatch ↔
      pack_padded_sequence (M0.input_dropout.forward false masksKeep.inputMask
        (embedBatch M0 [[0], [1]])) [1] = Except.error FwdError.lengthsMismatch :=
  (C8_error_propagation M0 false masksKeep [[0], [1]] [1] (embedBatch M0 [[0], [1]])
    rfl).1 FwdError.lengthsMismatch

/-- C2: under a well-formed call the returned feature tensor has one row per
input sequence and its timestep dimension is exactly the maximum true length
in this call's lengths array — not the (possibly wider) padded width of the
input batch. -/
theorem C2_output_width (m : EncoderRNN) (tr : Bool) (masks : DropMasks)
    (inputs : List (List Nat)) (lengths : List Nat) (T : Nat)
    (hv : validCall m inputs lengths T) :
    ∃ out hidden, m.forward tr masks inputs lengths = Except.ok (out, hidden) ∧
      out.length = lengths.length ∧ ∀ row ∈ out, row.length = maxLen lengths := by
  obtain ⟨out, hidden, h1, h2, h3, _⟩ := forward_spec m tr masks inputs lengths T hv
  exact ⟨out, hidden, h1, h2, h3⟩

/-- C2 witness: true lengths [5,3,1] padded to width 6 produce an output
whose timestep dimension is exactly 5. -/
theorem C2_witness :
    ∃ out hidden,
      M0.forward false masksKeep
        [[0, 1, 2, 0, 0, 0], [1, 2, 0, 0, 0, 0], [2, 0, 0, 0, 0, 0]] [5, 3, 1]
        = Except.ok (out, hidden) ∧
      out.length = 3 ∧ ∀ row ∈ out, row.length = 5 :=
  C2_output_width M0 false masksKeep
    [[0, 1, 2, 0, 0, 0], [1, 2, 0, 0, 0, 0], [2, 0, 0, 0, 0, 0]] [5, 3, 1] 6 (by decide)

theorem forward_hidden_width (m : EncoderRNN) (tr : Bool) (masks : DropMasks)
    (inputs : List (List Nat)) (input_lengths : List Nat)
    (out hidden : List (List Vec))
    (h : m.forward tr masks inputs input_lengths = Except.ok (out, hidden))
    (hcF : ∀ l x hv, ((m.rnn.cellF l).step x hv).length = m.rnn.hidden_size)
    (hcB : ∀ l x hv, ((m.rnn.cellB l).step x hv).length = m.rnn.hidden_size) :
    ∀ row ∈ hidden, ∀ v ∈ row, v.length = m.rnn.hidden_size := by
  unfold EncoderRNN.forward at h
  cases hE : m.embedding.forward inputs with
  | error e =>
    rw [hE] at h
    exact Except.noConfusion h
  | ok E =>
    rw [hE] at h
    cases hp : pack_padded_sequence (m.input_dropout.forward tr masks.inputMask E)
        input_lengths with
    | error e =>
      simp only [Except.bind, bind, hp] at h
      exact Except.noConfusion h
    | ok packed =>
      simp only [Except.bind, bind, hp] at h
      have hhid : hidden = (m.rnn.runPacked tr masks.layerMask packed).2 := by
        have := Except.ok.inj h
        exact (congrArg Prod.snd this).symm
      rw [hhid]
      exact runLayers_snd_width m.rnn tr masks.layerMask _ _ _ hcF hcB

/-- C3: under a well-formed call (with cells producing hidden vectors of the
configured width, as the framework's cells do) the final hidden-state stack
has shape (directions × num_layers, batch, hidden_size) regardless of the
input sequence lengths. -/
theorem C3_hidden_shape (m : EncoderRNN) (tr : Bool) (masks : DropMasks)
    (inputs : List (List Nat)) (lengths : List Nat) (T : Nat)
    (hv : validCall m inputs lengths T)
    (hcF : ∀ l x h, ((m.rnn.cellF l).step x h).length = m.rnn.hidden_size)
    (hcB : ∀ l x h, ((m.rnn.cellB l).step x h).length = m.rnn.hidden_size) :
    ∃ out hidden, m.forward tr masks inputs lengths = Except.ok (out, hidden) ∧
      hidden.length = (if m.rnn.bidirectional then 2 else 1) * m.rnn.num_layers ∧
      (∀ row ∈ hidden, row.length = lengths.length) ∧
      (∀ row ∈ hidden, ∀ v ∈ row, v.length = m.rnn.hidden_size) := by
  obtain ⟨out, hidden, h1, _, _, h4, h5, _⟩ := forward_spec m tr masks inputs lengths T hv
  exact ⟨out, hidden, h1, h4, h5,
    forward_hidden_width m tr masks inputs lengths out hidden h1 hcF hcB⟩

/-- C3 witness: a two-layer bidirectional width-1 encoder on a batch of 3
returns a hidden stack of 4 rows, each with 3 hidden vectors of width 1. -/
theorem C3_witness :
    ∃ out hidden,
      M0.forward false masksKeep [[0, 1, 2, 0, 0], [1, 2, 0, 0, 0], [2, 0, 0, 0, 0]]
        [5, 3, 1] = Except.ok (out, hidden) ∧
      hidden.length = 4 ∧ (∀ row ∈ hidden, row.length = 3) ∧
      ∀ row ∈ hidden, ∀ v ∈ row, v.length = 1 :=
  C3_hidden_shape M0 false masksKeep [[0, 1, 2, 0, 0], [1, 2, 0, 0, 0], [2, 0, 0, 0, 0]]
    [5, 3, 1] 5 (by decide) (fun _ _ _ => rfl) (fun _ _ _ => rfl)

/-- C6: batch ordering survives the pack/unpack round trip: under a
well-formed call, row `i` of the output (up to sequence i's true length)
and entry `i` of every hidden row equal the reference per-sequence
computation applied to input sequence `i` alone. -/
theorem C6_order_preserved (m : EncoderRNN) (tr : Bool) (masks : DropMasks)
    (inputs : List (List Nat)) (lengths : List Nat) (T : Nat)
    (hv : validCall m inputs lengths T) :
    ∃ out hidden, m.forward tr masks inputs lengths = Except.ok (out, hidden) ∧
      (∀ i, i < lengths.length →
        (out.getD i []).take (lengths.getD i 0)
          = m.rnn.refEncode tr masks.layerMask i
              (m.refSeqInput tr masks i (inputs.getD i []) (lengths.getD i 0))) ∧
      (∀ i, i < lengths.length →
        hidden.map (fun row => row[i]?)
          = (m.rnn.refHidden tr masks.layerMask i
              (m.refSeqInput tr masks i (inputs.getD i []) (lengths.getD i 0))).map some) := by
  obtain ⟨out, hidden, h1, _, _, _, _, h6, h7⟩ := forward_spec m tr masks inputs lengths T hv
  exact ⟨out, hidden, h1, h6, h7⟩

/-- C6 witness: in a batch with lengths [5,3,1], output row 1 (restricted to
its 3 valid timesteps) equals the reference encoding of input sequence 1. -/
theorem C6_witness :
    ∃ out hidden,
      M0.forward false masksKeep [[0, 1, 2, 0, 0], [1, 2, 0, 0, 0], [2, 0, 0, 0, 0]]
        [5, 3, 1] = Except.ok (out, hidden) ∧
      (out.getD 1 []).take 3 = M0.rnn.refEncode false masksKeep.layerMask 1
        (M0.refSeqInput false masksKeep 1 [1, 2, 0, 0, 0] 3) := by
  obtain ⟨out, hidden, h1, h2, _⟩ := C6_order_preserved M0 false masksKeep
    [[0, 1, 2, 0, 0], [1, 2, 0, 0, 0], [2, 0, 0, 0, 0]] [5, 3, 1] 5 (by decide)
  exact ⟨out, hidden, h1, h2 1 (by decide)⟩

/-- C5 counterexample: with a single layer, configured dropout 1 versus 0,
the same training-mode call with the same dropout draw returns different
outputs — because the one configured probability also drives the input
dropout applied to the embedded vectors.  This refutes the "fixed random
seed" half of the claim. -/
theorem C5_counterexample :
    Mone.rnn.num_layers = 1 ∧ Mone.input_dropout.p ≠ 0 ∧
    (Mone.forward true masksDrop [[0]] [1]).toOption
      ≠ (Mzero.forward true masksDrop [[0]] [1]).toOption := by
  refine ⟨rfl, by decide, by decide⟩

/-- C5 (amended): with a single layer no inter-layer dropout is ever applied
— the recurrent stack behaves identically with its dropout probability
replaced by 0, in any mode and under any dropout draw; and in eval mode the
entire forward pass with any configured p is identical to the same module
with p = 0.  In training mode the full-module comparison fails (see the
counterexample) because the same p also controls the input dropout. -/
theorem C5_single_layer_dropout_free (m : EncoderRNN)
    (h1 : m.rnn.num_layers = 1) :
    (∀ tr mask B frames, m.rnn.runLayers tr mask B (List.range m.rnn.num_layers) frames
      = ({ m.rnn with dropout := 0 } : RNNModule).runLayers tr mask B
          (List.range m.rnn.num_layers) frames) ∧
    (∀ masks inputs input_lengths,
      m.forward false masks inputs input_lengths
        = (zeroDropout m).forward false masks inputs input_lengths) :=
  ⟨fun tr mask B frames => runLayers_single_layer_dropout_free m.rnn h1 tr mask B frames,
   fun masks inputs input_lengths =>
    forward_eval_dropout_free m masks inputs input_lengths⟩

/-- C5 witness: for the concrete single-layer p = 1 module, the stack is
dropout-free and the eval-mode forward equals the p = 0 module's. -/
theorem C5_witness :
    Mone.rnn.runLayers true masksKeep.layerMask 1 (List.range Mone.rnn.num_layers)
        [[[1]]]
      = Mzero.rnn.runLayers true masksKeep.layerMask 1 (List.range Mzero.rnn.num_layers)
        [[[1]]] ∧
    Mone.forward false masksKeep [[0]] [1] = Mzero.forward false masksKeep [[0]] [1] := by
  obtain ⟨ha, hb⟩ := C5_single_layer_dropout_free Mone rfl
  exact ⟨ha true masksKeep.layerMask 1 [[[1]]], hb masksKeep [[0]] [1]⟩

end PytorchSeq2Seq
